import Mathlib

/-!
Shallow embedding of the s3fs afero adapter (file.go and fs.go).

Bytes are modelled as `List Nat`.  The object store holds at most one
object (the handle's key) plus the state of one multipart upload session;
PUT / CreateMultipartUpload / UploadPart / CompleteMultipartUpload calls
are counted so that finalization behaviour is observable.  Loops in the
source (shiftBodyFromStart, the gap-fill loop in Write, the flush loop in
uploadBody, the tail-copy loop in Sync) are modelled with explicit fuel;
fuel exhaustion is reported as the distinguished error `Err.noFuel`,
which marks divergence of the original loop (possible only when the
configured minimum part size is zero).
-/

namespace S3

/-- Errors of the adapter: ErrClosed, ErrReadOnly, ErrWriteOnly,
ErrAppendOnly, ErrNotExist (file.go 83-90), io.EOF, a store listing
failure, and the fuel marker for diverging loops. -/
inductive Err where
  | closed
  | readOnly
  | writeOnly
  | appendOnly
  | notExist
  | eof
  | listErr
  | noFuel
deriving DecidableEq, Repr

/-- byte sequences -/
abbrev Bytes := List Nat

/-- S3FsOpts (part_000, 36-38): the configured minimum part size. -/
structure Cfg where
  mps : Nat
deriving DecidableEq, Repr

/-- The remote store, restricted to the single key a handle is bound to:
the object body (if the key exists), the server side state of the one
multipart upload session a handle can create (the ordered list of
uploaded part bodies), and call counters for CreateMultipartUpload,
PutObject and CompleteMultipartUpload. -/
structure Store where
  obj : Option Bytes
  sess : Option (List Bytes)
  creates : Nat
  puts : Nat
  completes : Nat
deriving DecidableEq, Repr

/-- File (file.go 92-116): open flag, closed/truncated markers, the
upload state (pending body, upload offset, multipart marker and the
number of recorded completed parts) and the download state (offset and
the lazily opened remaining read stream). -/
structure SFile where
  flag : Nat
  closed : Bool
  truncated : Bool
  upBody : Bytes
  upOff : Nat
  multipart : Bool
  parts : Nat
  dOff : Nat
  dStream : Option Bytes
deriving DecidableEq, Repr

/-- os.O_WRONLY -/
def O_WRONLY : Nat := 1
/-- os.O_RDWR -/
def O_RDWR : Nat := 2
/-- os.O_CREATE -/
def O_CREATE : Nat := 64
/-- os.O_TRUNC -/
def O_TRUNC : Nat := 512
/-- os.O_APPEND -/
def O_APPEND : Nat := 1024

/-- One Read call on the remote byte stream (the GetObjectOutput body):
returns the bytes read, the remaining stream, and io.EOF once the
stream is exhausted. -/
def streamRead (s : Bytes) (cap : Nat) : Bytes × Bytes × Option Err :=
  if s.isEmpty ∧ cap ≠ 0 then ([], s, some .eof)
  else (s.take cap, s.drop cap, none)

/-- File.Stat (file.go 348-367): a HeadObject probe; a 404 is mapped to
ErrNotExist, otherwise the content length is surfaced. -/
def statSize (st : Store) : Except Err Nat :=
  match st.obj with
  | none => .error .notExist
  | some o => .ok o.length

/-- shiftBodyFromStart (file.go 526-547): discard `off` bytes from the
front of the stream by repeated bounded reads.  `i` is the running count
of discarded bytes; the chunk size mirrors the source's three cases.
Returns the remaining stream together with the first read error. -/
def shiftLoop (mps off : Nat) : Nat → Nat → Bytes → Bytes × Option Err
  | 0, _, s => (s, some .noFuel)
  | fuel + 1, i, s =>
    if i < off then
      let cap := if off ≤ mps then off else if off - i ≤ mps then off - i else mps
      match streamRead s cap with
      | (_, s', some e) => (s', some e)
      | (r, s', none) => shiftLoop mps off fuel (i + r.length) s'
    else (s, none)

/-- File.Read, fetch step (file.go 145-155): if no stream is open, GET
the object and discard `downloadCursor` bytes from its front. -/
def fetchStream (cfg : Cfg) (f : SFile) (st : Store) : SFile × Option Err :=
  match f.dStream with
  | some _ => (f, none)
  | none =>
    match st.obj with
    | none => (f, some .notExist)
    | some o =>
      let r := shiftLoop cfg.mps f.dOff (f.dOff + 1) 0 o
      ({ f with dStream := some r.1 }, r.2)

/-- Result of File.Read: bytes read count, the caller's buffer after the
call (read bytes followed by the untouched tail), the updated handle and
the error. -/
structure RRead where
  n : Nat
  buf : Bytes
  f : SFile
  err : Option Err
deriving DecidableEq, Repr

/-- File.Read (file.go 139-161): fails with ErrWriteOnly on a write-only
handle; opens the stream lazily, then reads from it and advances
`downloadCursor` by the number of bytes read. -/
def fileRead (cfg : Cfg) (f : SFile) (st : Store) (p : Bytes) : RRead :=
  if f.flag &&& O_WRONLY ≠ 0 then ⟨0, p, f, some .writeOnly⟩
  else
    match fetchStream cfg f st with
    | (f', some e) => ⟨0, p, f', some e⟩
    | (f', none) =>
      let s := f'.dStream.getD []
      let r := streamRead s p.length
      ⟨r.1.length, r.1 ++ p.drop r.1.length,
        { f' with dStream := some r.2.1, dOff := f'.dOff + r.1.length }, r.2.2⟩

/-- File.Seek (file.go 181-224): Stat for the size, then resolve the
target relative to start/current/end; out-of-range targets return io.EOF
before any state change; on success the stream is invalidated and the
new `downloadCursor` is returned. -/
def fileSeek (f : SFile) (st : Store) (offset : Int) (whence : Nat) :
    Int × SFile × Option Err :=
  match statSize st with
  | .error e => (0, f, some e)
  | .ok sz =>
    let size : Int := sz
    match whence with
    | 0 =>
      if offset < 0 then (0, f, some .eof)
      else if offset > size then (0, f, some .eof)
      else
        let f' := { f with dOff := offset.toNat, dStream := none }
        ((f'.dOff : Int), f', none)
    | 1 =>
      if offset < 0 ∧ (f.dOff : Int) + offset < 0 then (0, f, some .eof)
      else if offset + (f.dOff : Int) > size then (0, f, some .eof)
      else
        let f' := { f with dOff := ((f.dOff : Int) + offset).toNat, dStream := none }
        ((f'.dOff : Int), f', none)
    | 2 =>
      if offset > 0 then (0, f, some .eof)
      else if -offset > size then (0, f, some .eof)
      else
        let f' := { f with dOff := (size + offset).toNat, dStream := none }
        ((f'.dOff : Int), f', none)
    | _ =>
      let f' := { f with dStream := none }
      ((f'.dOff : Int), f', none)

/-- File.uploadPart (file.go 565-613): create the multipart session on
first use (one CreateMultipartUpload call), then upload `b` as the next
part and record the completed part. -/
def uploadPart (f : SFile) (st : Store) (b : Bytes) : SFile × Store × Option Err :=
  let fs :=
    if f.multipart then (f, st)
    else ({ f with multipart := true, parts := 0 },
          { st with creates := st.creates + 1, sess := some [] })
  (({ fs.1 with parts := fs.1.parts + 1 },
    { fs.2 with sess := fs.2.sess.map (fun ps => ps ++ [b]) }, none))

/-- File.uploadBody, flush loop (file.go 553-560): while the pending
body exceeds the minimum part size, slice off one part of exactly that
size and upload it. -/
def uploadFlush (cfg : Cfg) : Nat → SFile → Store → SFile × Store × Option Err
  | 0, f, st => (f, st, some .noFuel)
  | fuel + 1, f, st =>
    if cfg.mps < f.upBody.length then
      match uploadPart f st (f.upBody.take cfg.mps) with
      | (f', st', none) =>
        uploadFlush cfg fuel { f' with upBody := f'.upBody.drop cfg.mps } st'
      | (f', st', some e) => (f', st', some e)
    else (f, st, none)

/-- File.uploadBody (file.go 549-563): append `b` to the pending body,
advance the upload cursor by its length, then flush full parts. -/
def uploadBody (cfg : Cfg) (f : SFile) (st : Store) (b : Bytes) :
    SFile × Store × Option Err :=
  let f' := { f with upBody := f.upBody ++ b, upOff := f.upOff + b.length }
  uploadFlush cfg (f'.upBody.length + 1) f' st

/-- File.Write, gap-fill loop (file.go 260-276): while the upload cursor
lags the saved download offset `off`, read into `p`, cut `p` down to the
remaining gap when it is larger, and push it through uploadBody.  A read
error other than io.EOF with zero bytes read aborts. -/
def gapLoop (cfg : Cfg) (off : Nat) :
    Nat → Bytes → SFile → Store → Bytes × SFile × Store × Option Err
  | 0, p, f, st => (p, f, st, some .noFuel)
  | fuel + 1, p, f, st =>
    if f.upOff < off then
      let r := fileRead cfg f st p
      if r.err ≠ none ∧ r.err ≠ some .eof ∧ r.n = 0 then (r.buf, r.f, st, r.err)
      else
        let p1 := if off - r.f.upOff < r.buf.length then r.buf.take (off - r.f.upOff)
                  else r.buf
        match uploadBody cfg r.f st p1 with
        | (f', st', none) => gapLoop cfg off fuel p1 f' st'
        | (f', st', some e) => (p1, f', st', some e)
    else (p, f, st, none)

/-- File.Write (file.go 226-287): ErrReadOnly when the flag is zero; in
append mode reposition to the object end first (a missing object is
tolerated only with O_CREATE); gap-fill the bytes between the upload
cursor and the download cursor; then hand the caller's bytes to
uploadBody and pull the download cursor up to the upload cursor. -/
def fileWrite (cfg : Cfg) (f : SFile) (st : Store) (b : Bytes) :
    Nat × SFile × Store × Option Err :=
  if f.flag = 0 then (0, f, st, some .readOnly)
  else
    let step1 : SFile × Option Err :=
      if f.flag &&& O_APPEND ≠ 0 then
        match statSize st with
        | .error e =>
          if e = .notExist ∧ f.flag &&& O_CREATE ≠ 0 then (f, none)
          else (f, some e)
        | .ok sz =>
          match fileSeek f st (sz : Int) 0 with
          | (_, f1, none) => (f1, none)
          | (_, f1, some e) => (f1, some e)
      else (f, none)
    match step1 with
    | (f1, some e) => (0, f1, st, some e)
    | (f1, none) =>
      let gap : Bytes × SFile × Store × Option Err :=
        if f1.upOff < f1.dOff then
          let p := List.replicate cfg.mps 0
          let off := f1.dOff
          match fileSeek f1 st (f1.upOff : Int) 0 with
          | (_, f2, none) => gapLoop cfg off (off - f2.upOff + 1) p f2 st
          | (_, f2, some e) => (p, f2, st, some e)
        else ([], f1, st, none)
      match gap with
      | (_, f2, st2, some e) => (0, f2, st2, some e)
      | (_, f2, st2, none) =>
        match uploadBody cfg f2 st2 b with
        | (f3, st3, some e) => (0, f3, st3, some e)
        | (f3, st3, none) => (b.length, { f3 with dOff := f3.upOff }, st3, none)

/-- File.WriteAt (file.go 289-301): ErrReadOnly when the flag is zero;
otherwise Seek to `off` from the start and Write. -/
def fileWriteAt (cfg : Cfg) (f : SFile) (st : Store) (b : Bytes) (off : Int) :
    Nat × SFile × Store × Option Err :=
  if f.flag = 0 then (0, f, st, some .readOnly)
  else
    match fileSeek f st off 0 with
    | (_, f1, some e) => (0, f1, st, some e)
    | (_, f1, none) => fileWrite cfg f1 st b

/-- File.Sync, finalization (file.go 420-452): with a multipart session,
upload any nonempty pending body as a final part and complete the
session (the store assembles the object from the uploaded parts);
without one, PUT the pending body as the whole object. -/
def syncFinish (f : SFile) (st : Store) : SFile × Store × Option Err :=
  if f.multipart then
    let r : SFile × Store × Option Err :=
      if 0 < f.upBody.length then uploadPart f st f.upBody else (f, st, none)
    match r with
    | (f1, st1, some e) => (f1, st1, some e)
    | (f1, st1, none) =>
      (f1, { st1 with obj := some (st1.sess.getD []).flatten,
                      completes := st1.completes + 1 }, none)
  else
    (f, { st with obj := some f.upBody, puts := st.puts + 1 }, none)

/-- File.Sync, tail-copy loop (file.go 397-416): read the untouched
remote tail in minimum-part-size chunks and push each chunk through
uploadBody; io.EOF uploads the final chunk and stops. -/
def syncLoop (cfg : Cfg) : Nat → Bytes → SFile → Store → SFile × Store × Option Err
  | 0, _, f, st => (f, st, some .noFuel)
  | fuel + 1, b, f, st =>
    let r := fileRead cfg f st b
    match r.err with
    | some .eof =>
      match uploadBody cfg r.f st (r.buf.take r.n) with
      | (f1, st1, none) => (f1, st1, none)
      | (f1, st1, some e) => (f1, st1, some e)
    | some e => (r.f, st, some e)
    | none =>
      match uploadBody cfg r.f st (r.buf.take r.n) with
      | (f1, st1, none) => syncLoop cfg fuel r.buf f1 st1
      | (f1, st1, some e) => (f1, st1, some e)

/-- File.Sync (file.go 369-455): ErrReadOnly when the flag is zero; a
missing object is tolerated; when the handle is not truncated and the
remote size exceeds the upload cursor, seek to the upload cursor and
copy the untouched tail forward; then finalize. -/
def fileSync (cfg : Cfg) (f : SFile) (st : Store) : SFile × Store × Option Err :=
  if f.flag = 0 then (f, st, some .readOnly)
  else
    match statSize st with
    | .error e =>
      if e = .notExist then syncFinish f st
      else (f, st, some e)
    | .ok sz =>
      if ¬f.truncated ∧ f.upOff < sz then
        let b := List.replicate cfg.mps 0
        match fileSeek f st (f.upOff : Int) 0 with
        | (_, f1, some e) => (f1, st, some e)
        | (_, f1, none) =>
          match syncLoop cfg (sz + 2) b f1 st with
          | (f2, st2, none) => syncFinish f2 st2
          | (f2, st2, some e) => (f2, st2, some e)
      else syncFinish f st

/-- File.resetBuffers (file.go 615-627): drop the read stream and reset
both cursors, the pending body and the multipart reference.  No store
call is made (the in-progress multipart session is not aborted). -/
def resetBuffers (f : SFile) : SFile :=
  { f with dStream := none, dOff := 0, upBody := [], upOff := 0,
           multipart := false, parts := 0 }

/-- File.Close (file.go 124-137): ErrClosed when already closed;
otherwise reset the buffers and mark the handle closed.  The store is
not touched. -/
def fileClose (f : SFile) (st : Store) : SFile × Store × Option Err :=
  if f.closed then (f, st, some .closed)
  else ({ resetBuffers f with closed := true }, st, none)

/-- File.Truncate (file.go 457-479): ErrReadOnly when the flag is zero,
ErrAppendOnly in append mode; reset the buffers, mark the handle
truncated, then Seek to `size`. -/
def fileTruncate (f : SFile) (st : Store) (size : Int) : SFile × Option Err :=
  if f.flag = 0 then (f, some .readOnly)
  else if f.flag &&& O_APPEND ≠ 0 then (f, some .appendOnly)
  else
    let f1 := { resetBuffers f with truncated := true }
    match fileSeek f1 st size 0 with
    | (_, f2, none) => (f2, none)
    | (_, f2, some e) => (f2, some e)

/-- A handle as produced by S3Fs.OpenFile (part_000, 73-77). -/
def freshFile (flag : Nat) : SFile :=
  ⟨flag, false, false, [], 0, false, 0, 0, none⟩

/-- S3Fs.OpenFile (part_000, 72-94): build the handle; Truncate(0) when
O_TRUNC is set; without O_CREATE the object must exist (Stat probe). -/
def sOpenFile (st : Store) (flag : Nat) : Option SFile × Option Err :=
  let f := freshFile flag
  let t : SFile × Option Err :=
    if flag &&& O_TRUNC ≠ 0 then fileTruncate f st 0 else (f, none)
  match t with
  | (_, some e) => (none, some e)
  | (f1, none) =>
    if flag &&& O_CREATE = 0 then
      match statSize st with
      | .error e => (none, some e)
      | .ok _ => (some f1, none)
    else (some f1, none)

/-- A caller reading a handle to end-of-stream: repeated Read calls with
a one-byte buffer, concatenating the bytes until io.EOF. -/
def readAllLoop (cfg : Cfg) : Nat → SFile → Store → Bytes × SFile × Option Err
  | 0, f, _ => ([], f, some .noFuel)
  | fuel + 1, f, st =>
    let r := fileRead cfg f st [0]
    match r.err with
    | some .eof => ([], r.f, none)
    | some e => ([], r.f, some e)
    | none =>
      let rest := readAllLoop cfg fuel r.f st
      (r.buf.take r.n ++ rest.1, rest.2.1, rest.2.2)

/-- A sequence of sequential Write calls on one handle, stopping at the
first error. -/
def writeSeq (cfg : Cfg) : List Bytes → SFile → Store → SFile × Store × Option Err
  | [], f, st => (f, st, none)
  | b :: bs, f, st =>
    match fileWrite cfg f st b with
    | (_, f', st', none) => writeSeq cfg bs f' st'
    | (_, f', st', some e) => (f', st', some e)

/-- One object record of a ListObjectsV2 page: key, size, mtime. -/
structure SObject where
  key : String
  osize : Nat
  mtime : Nat
deriving DecidableEq, Repr

/-- FileInfo (file.go 118-122): name, size and modification time. -/
structure SFileInfo where
  name : String
  fsize : Nat
  ftime : Nat
deriving DecidableEq, Repr

/-- FileInfo.Name (file.go 483). -/
def infoName (i : SFileInfo) : String := i.name

/-- File.Readdir, inner page loop (file.go 315-323): count and append
each object of the page; once the count exceeds `n` (for positive `n`)
stop the pagination.  Returns the updated count, the accumulated
records, and whether pagination was stopped. -/
def readdirPage (n : Int) : Nat → List SFileInfo → List SObject →
    Nat × List SFileInfo × Bool
  | count, acc, [] => (count, acc, false)
  | count, acc, o :: os =>
    let count' := count + 1
    let acc' := acc ++ [⟨o.key, o.osize, o.mtime⟩]
    if (count' : Int) > n ∧ n > 0 then (count', acc', true)
    else readdirPage n count' acc' os

/-- ListObjectsV2Pages as driven by File.Readdir (file.go 314-326):
deliver each page to the callback; stop when the callback stops the
pagination; when `thenErr` is set, fetching the page after the listed
ones fails and the accumulated records are returned with the error. -/
def readdirPagesLoop (n : Int) (thenErr : Bool) :
    Nat → List SFileInfo → List (List SObject) → List SFileInfo × Option Err
  | _, acc, [] => (acc, if thenErr then some .listErr else none)
  | count, acc, pg :: rest =>
    let r := readdirPage n count acc pg
    if r.2.2 then (r.2.1, none)
    else readdirPagesLoop n thenErr r.1 r.2.1 rest

/-- File.Readdir (file.go 305-332): paginate the keys under the handle's
path, collecting FileInfo records. -/
def fileReaddir (n : Int) (pages : List (List SObject)) (thenErr : Bool) :
    List SFileInfo × Option Err :=
  readdirPagesLoop n thenErr 0 [] pages

/-- File.Readdirnames (file.go 334-346): Readdir, then project Name over
the records; on a Readdir error return nil with that error. -/
def fileReaddirnames (n : Int) (pages : List (List SObject)) (thenErr : Bool) :
    List String × Option Err :=
  match fileReaddir n pages thenErr with
  | (_, some e) => ([], some e)
  | (fi, none) => (fi.map infoName, none)

/-- The target offset a Seek call resolves to, per whence (start,
current, end). -/
def seekTarget (f : SFile) (size : Nat) (offset : Int) (whence : Nat) : Int :=
  match whence with
  | 0 => offset
  | 1 => (f.dOff : Int) + offset
  | 2 => (size : Int) + offset
  | _ => 0

/-- All bytes handed to the store for the pending write of a handle:
the parts uploaded to the multipart session followed by the pending
body.  Finalization materialises exactly these bytes as the object. -/
def commit (f : SFile) (st : Store) : Bytes :=
  (st.sess.getD []).flatten ++ f.upBody

/-- An error that is neither ErrClosed nor ErrReadOnly. -/
def notCR (e : Option Err) : Prop :=
  e ≠ some Err.closed ∧ e ≠ some Err.readOnly

/-- Invariant of a purely sequential write session on a fresh
read-write handle: after the prefix `B` of the session's bytes has been
written, the handle's committed bytes are exactly `B`, both cursors sit
at `|B|`, the multipart session exists exactly when `B` is longer than
the minimum part size, and the store's object and PUT / completion
counters are untouched. -/
structure WInv (cfg : Cfg) (B : Bytes) (st0 : Store) (f : SFile) (st : Store) : Prop where
  commitEq : commit f st = B
  bodyLe : f.upBody.length ≤ cfg.mps
  upOffEq : f.upOff = B.length
  dOffEq : f.dOff = B.length
  flagEq : f.flag = O_RDWR
  coupl : f.multipart = st.sess.isSome
  sessIff : st.sess.isSome = decide (cfg.mps < B.length)
  createsEq : st.creates = st0.creates + (if st.sess.isSome then 1 else 0)
  objEq : st.obj = st0.obj
  putsEq : st.puts = st0.puts
  complEq : st.completes = st0.completes
  closedEq : f.closed = false
  truncEq : f.truncated = false

/-- Effect of handing `add` to uploadBody: the committed bytes grow by
`add`, the pending body stays at or below the minimum part size, the
multipart marker mirrors the store session, a session exists afterwards
exactly when one existed before or the pending bytes overflowed the
threshold, and everything else is untouched. -/
structure UpRel (cfg : Cfg) (add : Bytes) (f : SFile) (st : Store)
    (f' : SFile) (st' : Store) : Prop where
  commitEq : commit f' st' = commit f st ++ add
  bodyLe : f'.upBody.length ≤ cfg.mps
  coupl : f'.multipart = st'.sess.isSome
  sessEq : st'.sess.isSome =
    (st.sess.isSome || decide (cfg.mps < f.upBody.length + add.length))
  createsEq : st'.creates = st.creates +
    (if st.sess.isSome = false ∧ cfg.mps < f.upBody.length + add.length then 1 else 0)
  upOffEq : f'.upOff = f.upOff + add.length
  dOffEq : f'.dOff = f.dOff
  dStreamEq : f'.dStream = f.dStream
  flagEq : f'.flag = f.flag
  closedEq : f'.closed = f.closed
  truncEq : f'.truncated = f.truncated
  objEq : st'.obj = st.obj
  putsEq : st'.puts = st.puts
  complEq : st'.completes = st.completes

theorem uploadPart_spec (f : SFile) (st : Store) (b : Bytes)
    (hc : f.multipart = st.sess.isSome) :
    uploadPart f st b =
      ({ f with multipart := true,
                parts := (if f.multipart then f.parts else 0) + 1 },
       { st with creates := st.creates + (if f.multipart then 0 else 1),
                 sess := some (st.sess.getD [] ++ [b]) }, none) := by
  unfold uploadPart
  cases hs : st.sess with
  | none =>
    rw [hs] at hc; simp only [Option.isSome_none] at hc
    simp [hc, hs]
  | some ps =>
    rw [hs] at hc; simp only [Option.isSome_some] at hc
    simp [hc, hs]

theorem uploadFlush_spec (cfg : Cfg) (hmps : 1 ≤ cfg.mps) :
    ∀ fuel (f : SFile) (st : Store), f.upBody.length < fuel →
    f.multipart = st.sess.isSome →
    ∃ f' st', uploadFlush cfg fuel f st = (f', st', none) ∧
      UpRel cfg [] f st f' st' := by
  intro fuel
  induction fuel with
  | zero => intro f st h _; exact absurd h (Nat.not_lt_zero _)
  | succ n ih =>
    intro f st hlen hc
    rw [show uploadFlush cfg (n + 1) f st =
      (if cfg.mps < f.upBody.length then
        match uploadPart f st (f.upBody.take cfg.mps) with
        | (f', st', none) =>
          uploadFlush cfg n { f' with upBody := f'.upBody.drop cfg.mps } st'
        | (f', st', some e) => (f', st', some e)
      else (f, st, none)) from rfl]
    by_cases hgt : cfg.mps < f.upBody.length
    · rw [if_pos hgt, uploadPart_spec f st _ hc]
      have hc2 : ({ f with
            multipart := true,
            parts := (if f.multipart then f.parts else 0) + 1,
            upBody := f.upBody.drop cfg.mps } : SFile).multipart =
          ({ st with
            creates := st.creates + (if f.multipart then 0 else 1),
            sess := some (st.sess.getD [] ++ [f.upBody.take cfg.mps]) } : Store).sess.isSome := by
        simp
      have hlen2 : (f.upBody.drop cfg.mps).length < n := by
        simp only [List.length_drop]; omega
      obtain ⟨f', st', heq, hrel⟩ := ih _ _ hlen2 hc2
      refine ⟨f', st', heq, ?_⟩
      refine ⟨?_, hrel.bodyLe, hrel.coupl, ?_, ?_, ?_, hrel.dOffEq, hrel.dStreamEq,
        hrel.flagEq, hrel.closedEq, hrel.truncEq, hrel.objEq, hrel.putsEq, hrel.complEq⟩
      · rw [hrel.commitEq]
        simp only [commit, List.append_nil, Option.getD_some, List.flatten_append]
        simp [List.append_assoc]
      · rw [hrel.sessEq]
        simp [hgt]
      · rw [hrel.createsEq]
        simp only [Option.isSome_some]
        rw [hc]
        cases hs : st.sess <;> simp [hs, hgt]
      · simp [hrel.upOffEq]
    · rw [if_neg hgt]
      refine ⟨f, st, rfl, ?_⟩
      refine ⟨by simp [commit], by omega, hc, by simp [hgt], by simp [hgt], by simp,
        rfl, rfl, rfl, rfl, rfl, rfl, rfl, rfl⟩

theorem uploadBody_spec (cfg : Cfg) (f : SFile) (st : Store) (b : Bytes)
    (hmps : 1 ≤ cfg.mps) (hc : f.multipart = st.sess.isSome) :
    ∃ f' st', uploadBody cfg f st b = (f', st', none) ∧
      UpRel cfg b f st f' st' := by
  unfold uploadBody
  obtain ⟨f', st', heq, hrel⟩ := uploadFlush_spec cfg hmps
    ((f.upBody ++ b).length + 1)
    { f with upBody := f.upBody ++ b, upOff := f.upOff + b.length } st
    (by simp) hc
  refine ⟨f', st', heq, ?_⟩
  refine ⟨?_, hrel.bodyLe, hrel.coupl, ?_, ?_, ?_, hrel.dOffEq, hrel.dStreamEq,
    hrel.flagEq, hrel.closedEq, hrel.truncEq, hrel.objEq, hrel.putsEq, hrel.complEq⟩
  · rw [hrel.commitEq]; simp [commit, List.append_assoc]
  · rw [hrel.sessEq]; simp
  · rw [hrel.createsEq]; simp
  · rw [hrel.upOffEq]; simp

theorem streamRead_err (s : Bytes) (cap : Nat) :
    (streamRead s cap).2.2 = none ∨ (streamRead s cap).2.2 = some Err.eof := by
  unfold streamRead
  split <;> simp

theorem shiftLoop_err (mps off : Nat) : ∀ fuel i s,
    (shiftLoop mps off fuel i s).2 = none ∨
    (shiftLoop mps off fuel i s).2 = some Err.eof ∨
    (shiftLoop mps off fuel i s).2 = some Err.noFuel := by
  intro fuel
  induction fuel with
  | zero => intro i s; simp [shiftLoop]
  | succ n ih =>
    intro i s
    simp only [shiftLoop]
    split
    · split
      next fst s' e heq =>
        have h := streamRead_err s (if off ≤ mps then off else if off - i ≤ mps then off - i else mps)
        rw [heq] at h
        simp only at h
        rcases h with h | h
        · exact absurd h (by simp)
        · simp only [Option.some.injEq] at h
          subst h
          simp
      next r s' heq => exact ih _ s'
    · simp

theorem fetchStream_err (cfg : Cfg) (f : SFile) (st : Store) :
    notCR (fetchStream cfg f st).2 := by
  unfold fetchStream
  rcases f.dStream with _ | s
  · rcases st.obj with _ | o
    · simp [notCR]
    · simp only
      rcases shiftLoop_err cfg.mps f.dOff (f.dOff + 1) 0 o with h | h | h <;>
        simp [h, notCR]
  · simp [notCR]

theorem fileRead_err (cfg : Cfg) (f : SFile) (st : Store) (p : Bytes) :
    notCR (fileRead cfg f st p).err := by
  unfold fileRead
  split
  · simp [notCR]
  · rcases h : fetchStream cfg f st with ⟨f', e⟩
    have hb := fetchStream_err cfg f st
    rw [h] at hb
    rcases e with _ | e
    · simp only
      rcases streamRead_err (f'.dStream.getD []) p.length with h' | h' <;>
        rcases hs : streamRead (f'.dStream.getD []) p.length with ⟨r, s', e'⟩ <;>
        rw [hs] at h' <;> simp_all [notCR]
    · simpa [notCR] using hb

theorem fileSeek_err (f : SFile) (st : Store) (offset : Int) (whence : Nat) :
    notCR (fileSeek f st offset whence).2.2 := by
  unfold fileSeek statSize notCR
  rcases st.obj with _ | o
  · simp
  · repeat' (split <;> (try simp_all))

theorem uploadPart_err (f : SFile) (st : Store) (b : Bytes) :
    (uploadPart f st b).2.2 = none := by
  unfold uploadPart
  split <;> simp

theorem uploadFlush_err (cfg : Cfg) : ∀ fuel f st,
    notCR (uploadFlush cfg fuel f st).2.2 := by
  intro fuel
  induction fuel with
  | zero => intro f st; simp [uploadFlush, notCR]
  | succ n ih =>
    intro f st
    rw [show uploadFlush cfg (n + 1) f st =
      (if cfg.mps < f.upBody.length then
        match uploadPart f st (f.upBody.take cfg.mps) with
        | (f', st', none) =>
          uploadFlush cfg n { f' with upBody := f'.upBody.drop cfg.mps } st'
        | (f', st', some e) => (f', st', some e)
      else (f, st, none)) from rfl]
    split
    · rcases h : uploadPart f st (f.upBody.take cfg.mps) with ⟨f', st', e⟩
      have := uploadPart_err f st (f.upBody.take cfg.mps)
      rw [h] at this
      simp only at this
      subst this
      simpa using ih _ st'
    · simp [notCR]

theorem shiftLoop_big (mps off : Nat) (hmps : 1 ≤ mps) (hbig : mps < off) :
    ∀ fuel i s, i < off → off - i ≤ List.length s → off - i < fuel →
    shiftLoop mps off fuel i s = (s.drop (off - i), none) := by
  intro fuel
  induction fuel with
  | zero => intro i s _ _ h; exact absurd h (Nat.not_lt_zero _)
  | succ n ih =>
    intro i s hi hlen hfuel
    have hnil : ¬s.isEmpty = true := by
      rw [List.isEmpty_iff]
      intro hh
      rw [hh] at hlen
      simp at hlen
      omega
    simp only [shiftLoop, if_pos hi]
    rw [if_neg (by omega)]
    by_cases hsm : off - i ≤ mps
    · rw [if_pos hsm]
      have hsr : streamRead s (off - i) =
          (s.take (off - i), s.drop (off - i), none) := by
        unfold streamRead
        rw [if_neg (fun h => hnil h.1)]
      rw [hsr]
      simp only [List.length_take]
      have hmin : min (off - i) s.length = off - i := Nat.min_eq_left hlen
      rw [hmin]
      have hstop : i + (off - i) = off := by omega
      rw [hstop]
      cases n with
      | zero => omega
      | succ m =>
        simp only [shiftLoop]
        rw [if_neg (by omega)]
    · rw [if_neg hsm]
      have hsr : streamRead s mps = (s.take mps, s.drop mps, none) := by
        unfold streamRead
        rw [if_neg (fun h => hnil h.1)]
      rw [hsr]
      simp only [List.length_take]
      have hmin : min mps s.length = mps := Nat.min_eq_left (by omega)
      rw [hmin]
      rw [ih (i + mps) (s.drop mps) (by omega) (by simp [List.length_drop]; omega) (by omega)]
      rw [List.drop_drop]
      have harith : mps + (off - (i + mps)) = off - i := by omega
      rw [harith]

theorem shiftLoop_start (mps off : Nat) (hmps : 1 ≤ mps) (s : Bytes)
    (hoff : off ≤ s.length) (fuel : Nat) (hfuel : off < fuel) :
    shiftLoop mps off fuel 0 s = (s.drop off, none) := by
  by_cases hsm : off ≤ mps
  · cases fuel with
    | zero => omega
    | succ n =>
      simp only [shiftLoop]
      by_cases h0 : 0 < off
      · rw [if_pos h0, if_pos hsm]
        have hnil : ¬s.isEmpty = true := by
          rw [List.isEmpty_iff]
          intro hh
          rw [hh] at hoff
          simp at hoff
          omega
        have hsr : streamRead s off = (s.take off, s.drop off, none) := by
          unfold streamRead
          rw [if_neg (fun h => hnil h.1)]
        rw [hsr]
        simp only [List.length_take]
        rw [Nat.min_eq_left hoff]
        cases n with
        | zero => omega
        | succ m =>
          simp only [shiftLoop]
          rw [if_neg (by omega)]
      · rw [if_neg h0]
        have : off = 0 := by omega
        simp [this]
  · exact shiftLoop_big mps off hmps (by omega) fuel 0 s (by omega) (by omega) (by omega)

theorem fetchStream_none (cfg : Cfg) (f : SFile) (st : Store) (o : Bytes)
    (hmps : 1 ≤ cfg.mps) (hobj : st.obj = some o) (hd : f.dOff ≤ o.length)
    (hs : f.dStream = none) :
    fetchStream cfg f st = ({ f with dStream := some (o.drop f.dOff) }, none) := by
  unfold fetchStream
  rw [hs, hobj]
  simp only
  rw [shiftLoop_start cfg.mps f.dOff hmps o hd (f.dOff + 1) (by omega)]

theorem fetchStream_ready (cfg : Cfg) (f : SFile) (st : Store) (o : Bytes)
    (hmps : 1 ≤ cfg.mps) (hobj : st.obj = some o) (hd : f.dOff ≤ o.length)
    (hs : f.dStream = none ∨ f.dStream = some (o.drop f.dOff)) :
    fetchStream cfg f st = ({ f with dStream := some (o.drop f.dOff) }, none) := by
  rcases hs with h | h
  · exact fetchStream_none cfg f st o hmps hobj hd h
  · unfold fetchStream
    rw [h]
    show (f, (none : Option Err)) = _
    rw [← h]

theorem fileRead_spec (cfg : Cfg) (f : SFile) (st : Store) (p : Bytes) (o : Bytes)
    (hmps : 1 ≤ cfg.mps) (hobj : st.obj = some o)
    (hflag : f.flag &&& O_WRONLY = 0) (hd : f.dOff ≤ o.length)
    (hs : f.dStream = none ∨ f.dStream = some (o.drop f.dOff)) :
    fileRead cfg f st p =
      ⟨min p.length (o.length - f.dOff),
       (o.drop f.dOff).take p.length ++ p.drop (min p.length (o.length - f.dOff)),
       { f with dStream := some (o.drop (f.dOff + min p.length (o.length - f.dOff))),
                dOff := f.dOff + min p.length (o.length - f.dOff) },
       if o.length ≤ f.dOff ∧ p.length ≠ 0 then some Err.eof else none⟩ := by
  unfold fileRead
  rw [if_neg (by simp [hflag])]
  rw [fetchStream_ready cfg f st o hmps hobj hd hs]
  simp only [Option.getD_some]
  unfold streamRead
  by_cases he : o.length ≤ f.dOff
  · have hdnil : o.drop f.dOff = [] := List.drop_eq_nil_of_le he
    have hn : min p.length (o.length - f.dOff) = 0 := by omega
    rw [hdnil, hn]
    by_cases hp : p.length = 0
    · have hpn : p = [] := List.length_eq_zero.mp hp
      subst hpn
      simp [he, hdnil]
    · rw [if_pos ⟨by simp, hp⟩, if_pos ⟨he, hp⟩]
      simp [hdnil]
  · have hnn : ¬(o.drop f.dOff).isEmpty = true := by
      rw [List.isEmpty_iff, List.drop_eq_nil_iff]
      omega
    rw [if_neg (fun h => hnn h.1), if_neg (by simp [he])]
    simp only [List.length_take, List.length_drop, RRead.mk.injEq, true_and,
      and_true, eq_self_iff_true]
    rw [List.drop_drop]
    by_cases hple : p.length ≤ o.length - f.dOff
    · rw [Nat.min_eq_left hple]
    · rw [Nat.min_eq_right (by omega)]
      rw [List.drop_eq_nil_of_le (show o.length ≤ f.dOff + p.length by omega)]
      rw [List.drop_eq_nil_of_le
        (show o.length ≤ f.dOff + (o.length - f.dOff) by omega)]

theorem fileRead_mid (cfg : Cfg) (f : SFile) (st : Store) (p : Bytes) (o : Bytes)
    (hmps : 1 ≤ cfg.mps) (hobj : st.obj = some o)
    (hflag : f.flag &&& O_WRONLY = 0) (hd : f.dOff < o.length)
    (hs : f.dStream = none ∨ f.dStream = some (o.drop f.dOff)) :
    fileRead cfg f st p =
      ⟨min p.length (o.length - f.dOff),
       (o.drop f.dOff).take p.length ++ p.drop (min p.length (o.length - f.dOff)),
       { f with dStream := some (o.drop (f.dOff + min p.length (o.length - f.dOff))),
                dOff := f.dOff + min p.length (o.length - f.dOff) }, none⟩ := by
  rw [fileRead_spec cfg f st p o hmps hobj hflag (Nat.le_of_lt hd) hs]
  rw [if_neg (fun h => absurd h.1 (by omega))]

theorem fileRead_end (cfg : Cfg) (f : SFile) (st : Store) (p : Bytes) (o : Bytes)
    (hmps : 1 ≤ cfg.mps) (hobj : st.obj = some o)
    (hflag : f.flag &&& O_WRONLY = 0) (hd : f.dOff = o.length)
    (hp : p.length ≠ 0)
    (hs : f.dStream = none ∨ f.dStream = some (o.drop f.dOff)) :
    fileRead cfg f st p =
      ⟨0, p, { f with dStream := some [] }, some Err.eof⟩ := by
  rw [fileRead_spec cfg f st p o hmps hobj hflag (Nat.le_of_eq hd) hs]
  rw [if_pos ⟨Nat.le_of_eq hd.symm, hp⟩]
  have hz : min p.length (o.length - f.dOff) = 0 := by omega
  rw [hz]
  have hnil : o.drop f.dOff = [] := List.drop_eq_nil_of_le (by omega)
  simp [hnil]

theorem uploadBody_err (cfg : Cfg) (f : SFile) (st : Store) (b : Bytes) :
    notCR (uploadBody cfg f st b).2.2 := by
  unfold uploadBody
  exact uploadFlush_err cfg _ _ _

theorem gapLoop_err (cfg : Cfg) (off : Nat) : ∀ fuel p f st,
    notCR (gapLoop cfg off fuel p f st).2.2.2 := by
  intro fuel
  induction fuel with
  | zero => intro p f st; simp [gapLoop, notCR]
  | succ n ih =>
    intro p f st
    rw [show gapLoop cfg off (n + 1) p f st =
      (if f.upOff < off then
        let r := fileRead cfg f st p
        if r.err ≠ none ∧ r.err ≠ some .eof ∧ r.n = 0 then (r.buf, r.f, st, r.err)
        else
          let p1 := if off - r.f.upOff < r.buf.length then r.buf.take (off - r.f.upOff)
                    else r.buf
          match uploadBody cfg r.f st p1 with
          | (f', st', none) => gapLoop cfg off n p1 f' st'
          | (f', st', some e) => (p1, f', st', some e)
      else (p, f, st, none)) from rfl]
    split
    · simp only
      split
      · have := fileRead_err cfg f st p
        exact this
      · rcases h : uploadBody cfg (fileRead cfg f st p).f st _ with ⟨f', st', e⟩
        have hb := uploadBody_err cfg (fileRead cfg f st p).f st
          (if off - (fileRead cfg f st p).f.upOff < (fileRead cfg f st p).buf.length then
            (fileRead cfg f st p).buf.take (off - (fileRead cfg f st p).f.upOff)
          else (fileRead cfg f st p).buf)
        rw [h] at hb
        rcases e with _ | e
        · simpa using ih _ f' st'
        · simpa [notCR] using hb
    · simp [notCR]

theorem gapLoop_spec (cfg : Cfg) (o : Bytes) (k : Nat) (hmps : 1 ≤ cfg.mps)
    (hk : k ≤ o.length) :
    ∀ fuel p (f : SFile) (st : Store),
    st.obj = some o →
    f.flag &&& O_WRONLY = 0 →
    f.upOff = f.dOff →
    f.dOff ≤ k →
    (f.dStream = none ∨ f.dStream = some (o.drop f.dOff)) →
    (f.upOff < k → p.length = cfg.mps) →
    f.multipart = st.sess.isSome →
    f.upBody.length ≤ cfg.mps →
    k - f.upOff < fuel →
    ∃ p' f' st', gapLoop cfg k fuel p f st = (p', f', st', none) ∧
      commit f' st' = commit f st ++ (o.drop f.upOff).take (k - f.upOff) ∧
      f'.upOff = k ∧
      f'.multipart = st'.sess.isSome ∧
      f'.upBody.length ≤ cfg.mps ∧
      f'.flag = f.flag ∧ f'.closed = f.closed ∧ f'.truncated = f.truncated ∧
      st'.obj = st.obj ∧ st'.puts = st.puts ∧ st'.completes = st.completes := by
  intro fuel
  induction fuel with
  | zero => intro p f st _ _ _ _ _ _ _ _ h; exact absurd h (Nat.not_lt_zero _)
  | succ n ih =>
    intro p f st hobj hflag hud hdk hstream hplen hc hbody hfuel
    by_cases hlt : f.upOff < k
    · have hplen' := hplen hlt
      have hdlt : f.dOff < o.length := by omega
      simp only [gapLoop]
      rw [if_pos hlt]
      rw [fileRead_mid cfg f st p o hmps hobj hflag hdlt hstream]
      simp only [ne_eq, not_true_eq_false, false_and, if_false]
      have hbuflen : ((o.drop f.dOff).take p.length ++
          p.drop (min p.length (o.length - f.dOff))).length = cfg.mps := by
        simp only [List.length_append, List.length_take, List.length_drop]
        omega
      rw [hbuflen]
      have hn0 : min p.length (o.length - f.dOff) = min cfg.mps (o.length - f.upOff) := by
        rw [hplen', hud]
      by_cases hcase : k - f.upOff < cfg.mps
      · -- the gap ends inside this chunk: the buffer is cut down to the gap
        rw [if_pos hcase]
        have htk : k - f.upOff ≤ min p.length (o.length - f.dOff) := by
          rw [hplen', ← hud]; omega
        have hp1 : ((o.drop f.dOff).take p.length ++
            p.drop (min p.length (o.length - f.dOff))).take (k - f.upOff) =
            (o.drop f.upOff).take (k - f.upOff) := by
          rw [List.take_append_eq_append_take]
          rw [List.length_take]
          have h0 : k - f.upOff - min p.length ((o.drop f.dOff)).length = 0 := by
            simp only [List.length_drop]
            omega
          rw [List.length_drop] at h0 ⊢
          rw [h0, List.take_zero, List.append_nil, List.take_take]
          rw [Nat.min_eq_left (by omega), hud]
        rw [hp1]
        have hc' : f.multipart = st.sess.isSome := hc
        obtain ⟨f3, st3, hupeq, hrel⟩ :=
          uploadBody_spec cfg { f with
            dStream := some (o.drop (f.dOff + min p.length (o.length - f.dOff))),
            dOff := f.dOff + min p.length (o.length - f.dOff) } st
            ((o.drop f.upOff).take (k - f.upOff)) hmps hc'
        rw [hupeq]
        dsimp only
        have hlen1 : ((o.drop f.upOff).take (k - f.upOff)).length = k - f.upOff := by
          simp only [List.length_take, List.length_drop]
          omega
        have hup3 : f3.upOff = k := by
          rw [hrel.upOffEq]
          simp only [hlen1]
          omega
        cases n with
        | zero => omega
        | succ m =>
          simp only [gapLoop]
          rw [if_neg (by omega)]
          refine ⟨_, f3, st3, rfl, ?_, hup3, hrel.coupl, hrel.bodyLe, ?_, ?_, ?_,
            hrel.objEq, hrel.putsEq, hrel.complEq⟩
          · rw [hrel.commitEq]
            rfl
          · rw [hrel.flagEq]
          · rw [hrel.closedEq]
          · rw [hrel.truncEq]
      · -- a full minimum-part-size chunk is copied and the loop continues
        rw [if_neg hcase]
        have hn0' : min p.length (o.length - f.dOff) = cfg.mps := by
          rw [hplen']
          rw [Nat.min_eq_left (by omega)]
        have hpd : p.drop (min p.length (o.length - f.dOff)) = [] := by
          apply List.drop_eq_nil_of_le
          omega
        rw [hpd, List.append_nil]
        obtain ⟨f3, st3, hupeq, hrel⟩ :=
          uploadBody_spec cfg { f with
            dStream := some (o.drop (f.dOff + min p.length (o.length - f.dOff))),
            dOff := f.dOff + min p.length (o.length - f.dOff) } st
            ((o.drop f.dOff).take p.length) hmps hc
        rw [hupeq]
        dsimp only
        have hlen1 : ((o.drop f.dOff).take p.length).length = cfg.mps := by
          simp only [List.length_take, List.length_drop]
          omega
        have hup3 : f3.upOff = f.upOff + cfg.mps := by
          rw [hrel.upOffEq]
          simp only [hlen1]
        have hd3 : f3.dOff = f.dOff + cfg.mps := by
          rw [hrel.dOffEq]
          simp only [hn0']
        have hs3 : f3.dStream = some (o.drop f3.dOff) := by
          rw [hrel.dStreamEq, hd3]
          simp only [hn0']
        obtain ⟨p', f', st', heq2, hcommit2, hup2, hc2, hb2, hfl2, hcl2, htr2,
            hobj2, hput2, hcmp2⟩ :=
          ih ((o.drop f.dOff).take p.length) f3 st3
            (by rw [hrel.objEq]; exact hobj)
            (by rw [hrel.flagEq]; exact hflag)
            (by rw [hup3, hd3, hud])
            (by rw [hd3, ← hud]; omega)
            (Or.inr hs3)
            (fun _ => hlen1)
            hrel.coupl
            hrel.bodyLe
            (by rw [hup3]; omega)
        rw [heq2]
        refine ⟨p', f', st', rfl, ?_, hup2, hc2, hb2, ?_, ?_, ?_, ?_, ?_, ?_⟩
        · rw [hcommit2, hrel.commitEq, hup3]
          have hcm : commit { f with
              dStream := some (o.drop (f.dOff + min p.length (o.length - f.dOff))),
              dOff := f.dOff + min p.length (o.length - f.dOff) } st = commit f st := rfl
          rw [hcm]
          have hsplit : (o.drop f.upOff).take (k - f.upOff) =
              (o.drop f.upOff).take cfg.mps ++
              (o.drop (f.upOff + cfg.mps)).take (k - (f.upOff + cfg.mps)) := by
            have harith : k - f.upOff = cfg.mps + (k - (f.upOff + cfg.mps)) := by omega
            rw [harith, List.take_add, List.drop_drop]
          rw [hsplit, ← List.append_assoc, hplen', hud]
        · rw [hfl2, hrel.flagEq]
        · rw [hcl2, hrel.closedEq]
        · rw [htr2, hrel.truncEq]
        · rw [hobj2, hrel.objEq]
        · rw [hput2, hrel.putsEq]
        · rw [hcmp2, hrel.complEq]
    · have hek : f.upOff = k := by omega
      refine ⟨p, f, st, ?_, ?_, hek, hc, hbody, rfl, rfl, rfl, rfl, rfl, rfl⟩
      · simp only [gapLoop]
        rw [if_neg hlt]
      · rw [hek]
        simp

theorem fileSeek_nat0 (f : SFile) (st : Store) (o : Bytes) (m : Nat)
    (hobj : st.obj = some o) (hm : m ≤ o.length) :
    fileSeek f st (m : Int) 0 =
      ((m : Int), { f with dOff := m, dStream := none }, none) := by
  unfold fileSeek statSize
  rw [hobj]
  simp only
  rw [if_neg (by omega), if_neg (by omega)]
  simp

theorem syncFinish_spec (f : SFile) (st : Store)
    (hc : f.multipart = st.sess.isSome) :
    ∃ f' st', syncFinish f st = (f', st', none) ∧
      st'.obj = some (commit f st) ∧
      st'.puts = st.puts + (if f.multipart then 0 else 1) ∧
      st'.completes = st.completes + (if f.multipart then 1 else 0) := by
  unfold syncFinish
  by_cases hm : f.multipart
  · rw [if_pos hm]
    rcases hs : st.sess with _ | ps
    · rw [hs] at hc
      simp only [Option.isSome_none] at hc
      rw [hm] at hc
      exact absurd hc.symm (by simp)
    · by_cases hb : 0 < f.upBody.length
      · rw [if_pos hb, uploadPart_spec f st f.upBody hc]
        dsimp only
        refine ⟨_, _, rfl, ?_, by simp [hm], by simp [hm]⟩
        simp [commit, hs]
      · rw [if_neg hb]
        dsimp only
        have hnil : f.upBody = [] := by
          rcases hbe : f.upBody with _ | ⟨a, l⟩
          · rfl
          · rw [hbe] at hb; simp at hb
        refine ⟨_, _, rfl, ?_, by simp [hm], by simp [hm]⟩
        simp [commit, hnil, hs]
  · rw [if_neg hm]
    have hsn : st.sess = none := by
      rcases hs : st.sess with _ | ps
      · rfl
      · rw [hs] at hc
        simp only [Option.isSome_some] at hc
        exact absurd hc (by simpa using hm)
    refine ⟨_, _, rfl, ?_, by simp [hm], by simp [hm]⟩
    rw [commit, hsn]
    simp

theorem syncLoop_spec (cfg : Cfg) (o : Bytes) (hmps : 1 ≤ cfg.mps) :
    ∀ fuel b (f : SFile) (st : Store),
    st.obj = some o →
    f.flag &&& O_WRONLY = 0 →
    f.dOff ≤ o.length →
    (f.dStream = none ∨ f.dStream = some (o.drop f.dOff)) →
    b.length = cfg.mps →
    f.multipart = st.sess.isSome →
    f.upBody.length ≤ cfg.mps →
    o.length - f.dOff < fuel →
    ∃ f' st', syncLoop cfg fuel b f st = (f', st', none) ∧
      commit f' st' = commit f st ++ o.drop f.dOff ∧
      f'.multipart = st'.sess.isSome ∧
      f'.upBody.length ≤ cfg.mps ∧
      f'.flag = f.flag ∧ f'.closed = f.closed ∧ f'.truncated = f.truncated ∧
      f'.upOff = f.upOff + (o.length - f.dOff) ∧
      st'.obj = st.obj ∧ st'.puts = st.puts ∧ st'.completes = st.completes := by
  intro fuel
  induction fuel with
  | zero => intro b f st _ _ _ _ _ _ _ h; exact absurd h (Nat.not_lt_zero _)
  | succ n ih =>
    intro b f st hobj hflag hd hstream hblen hc hbody hfuel
    by_cases hend : f.dOff = o.length
    · simp only [syncLoop]
      rw [fileRead_end cfg f st b o hmps hobj hflag hend (by omega) hstream]
      dsimp only
      obtain ⟨f3, st3, hup, hrel⟩ :=
        uploadBody_spec cfg { f with dStream := some [] } st (b.take 0) hmps hc
      rw [hup]
      dsimp only
      refine ⟨f3, st3, rfl, ?_, hrel.coupl, hrel.bodyLe, hrel.flagEq, hrel.closedEq,
        hrel.truncEq, ?_, hrel.objEq, hrel.putsEq, hrel.complEq⟩
      · rw [hrel.commitEq]
        have hdrop : o.drop f.dOff = [] := List.drop_eq_nil_of_le (by omega)
        have hcm : commit { f with dStream := some [] } st = commit f st := rfl
        rw [hcm, hdrop]
        simp
      · rw [hrel.upOffEq]
        simp only [List.take_zero, List.length_nil]
        omega
    · have hlt : f.dOff < o.length := by omega
      simp only [syncLoop]
      rw [fileRead_mid cfg f st b o hmps hobj hflag hlt hstream]
      dsimp only
      have htake : ((o.drop f.dOff).take b.length ++
          b.drop (min b.length (o.length - f.dOff))).take
            (min b.length (o.length - f.dOff)) =
          (o.drop f.dOff).take (min b.length (o.length - f.dOff)) := by
        rw [List.take_append_eq_append_take, List.length_take, List.length_drop]
        rw [Nat.sub_self, List.take_zero, List.append_nil, List.take_take]
        rw [Nat.min_eq_left (by omega)]
      rw [htake]
      obtain ⟨f3, st3, hup, hrel⟩ :=
        uploadBody_spec cfg { f with
          dStream := some (o.drop (f.dOff + min b.length (o.length - f.dOff))),
          dOff := f.dOff + min b.length (o.length - f.dOff) } st
          ((o.drop f.dOff).take (min b.length (o.length - f.dOff))) hmps hc
      rw [hup]
      dsimp only
      have hlen1 : ((o.drop f.dOff).take (min b.length (o.length - f.dOff))).length =
          min b.length (o.length - f.dOff) := by
        simp only [List.length_take, List.length_drop]
        omega
      have hd3 : f3.dOff = f.dOff + min b.length (o.length - f.dOff) := by
        rw [hrel.dOffEq]
      have hs3 : f3.dStream = some (o.drop f3.dOff) := by
        rw [hrel.dStreamEq, hd3]
      have hblen2 : ((o.drop f.dOff).take b.length ++
          b.drop (min b.length (o.length - f.dOff))).length = cfg.mps := by
        simp only [List.length_append, List.length_take, List.length_drop]
        omega
      obtain ⟨f', st', heq2, hcommit2, hc2, hb2, hfl2, hcl2, htr2, hup2,
          hobj2, hput2, hcmp2⟩ :=
        ih ((o.drop f.dOff).take b.length ++ b.drop (min b.length (o.length - f.dOff)))
          f3 st3
          (by rw [hrel.objEq]; exact hobj)
          (by rw [hrel.flagEq]; exact hflag)
          (by rw [hd3]; omega)
          (Or.inr hs3)
          hblen2
          hrel.coupl
          hrel.bodyLe
          (by rw [hd3]; omega)
      rw [heq2]
      refine ⟨f', st', rfl, ?_, hc2, hb2, ?_, ?_, ?_, ?_, ?_, ?_, ?_⟩
      · rw [hcommit2, hrel.commitEq, hd3]
        have hcm : commit { f with
            dStream := some (o.drop (f.dOff + min b.length (o.length - f.dOff))),
            dOff := f.dOff + min b.length (o.length - f.dOff) } st = commit f st := rfl
        rw [hcm, List.append_assoc]
        congr 1
        rw [← List.drop_drop, List.take_append_drop]
      · rw [hfl2, hrel.flagEq]
      · rw [hcl2, hrel.closedEq]
      · rw [htr2, hrel.truncEq]
      · rw [hup2, hrel.upOffEq, hd3]
        simp only [hlen1]
        omega
      · rw [hobj2, hrel.objEq]
      · rw [hput2, hrel.putsEq]
      · rw [hcmp2, hrel.complEq]

theorem fileRead_streamed (cfg : Cfg) (f : SFile) (st : Store) (p s : Bytes)
    (hflag : f.flag &&& O_WRONLY = 0) (hs : f.dStream = some s) :
    fileRead cfg f st p =
      ⟨(s.take p.length).length, s.take p.length ++ p.drop (s.take p.length).length,
       { f with dStream := some (s.drop p.length),
                dOff := f.dOff + (s.take p.length).length },
       if s.isEmpty ∧ p.length ≠ 0 then some Err.eof else none⟩ := by
  unfold fileRead fetchStream
  rw [if_neg (by simp [hflag]), hs]
  dsimp only
  rw [hs]
  simp only [Option.getD_some]
  unfold streamRead
  split
  next h =>
    have hnil : s = [] := List.isEmpty_iff.mp h.1
    subst hnil
    simp [h.2]
  next h =>
    rfl

theorem readAllLoop_stream (cfg : Cfg) (st : Store) :
    ∀ s fuel (f : SFile), f.dStream = some s → f.flag &&& O_WRONLY = 0 →
    s.length < fuel →
    (readAllLoop cfg fuel f st).1 = s ∧ (readAllLoop cfg fuel f st).2.2 = none := by
  intro s
  induction s with
  | nil =>
    intro fuel f hs hflag hfuel
    cases fuel with
    | zero => omega
    | succ n =>
      simp only [readAllLoop]
      rw [fileRead_streamed cfg f st [0] [] hflag hs]
      dsimp only
      simp
  | cons a s' ih =>
    intro fuel f hs hflag hfuel
    cases fuel with
    | zero => simp at hfuel
    | succ n =>
      simp only [readAllLoop]
      rw [fileRead_streamed cfg f st [0] (a :: s') hflag hs]
      dsimp only
      obtain ⟨h1, h2⟩ := ih n { f with
          dStream := some s',
          dOff := f.dOff + 1 } rfl hflag (by simp at hfuel; omega)
      constructor
      · simpa using h1
      · simpa using h2

theorem readAllLoop_fresh (cfg : Cfg) (st : Store) (o : Bytes)
    (hobj : st.obj = some o) (fuel : Nat) (hfuel : o.length < fuel) :
    (readAllLoop cfg fuel (freshFile 0) st).1 = o ∧
    (readAllLoop cfg fuel (freshFile 0) st).2.2 = none := by
  cases fuel with
  | zero => omega
  | succ n =>
    have hfr : fileRead cfg (freshFile 0) st [0] =
        fileRead cfg ⟨0, false, false, [], 0, false, 0, 0, some o⟩ st [0] := by
      unfold fileRead fetchStream
      rw [hobj]
      simp [freshFile, shiftLoop]
    have hsame : readAllLoop cfg (n + 1) (freshFile 0) st =
        readAllLoop cfg (n + 1) ⟨0, false, false, [], 0, false, 0, 0, some o⟩ st := by
      simp only [readAllLoop]
      rw [hfr]
    rw [hsame]
    exact readAllLoop_stream cfg st o (n + 1)
      ⟨0, false, false, [], 0, false, 0, 0, some o⟩ rfl (by simp [O_WRONLY, Nat.zero_and]) hfuel

theorem sOpenFile_read (st : Store) (o : Bytes) (hobj : st.obj = some o) :
    sOpenFile st 0 = (some (freshFile 0), none) := by
  simp [sOpenFile, statSize, hobj, Nat.zero_and]

theorem fileWrite_nogap (cfg : Cfg) (f : SFile) (st : Store) (b : Bytes)
    (hmps : 1 ≤ cfg.mps) (hflag : f.flag = O_RDWR) (hud : f.upOff = f.dOff)
    (hc : f.multipart = st.sess.isSome) :
    ∃ f' st', fileWrite cfg f st b = (b.length, f', st', none) ∧
      commit f' st' = commit f st ++ b ∧
      f'.upOff = f.upOff + b.length ∧ f'.dOff = f.upOff + b.length ∧
      f'.multipart = st'.sess.isSome ∧
      f'.upBody.length ≤ cfg.mps ∧
      st'.sess.isSome = (st.sess.isSome ||
        decide (cfg.mps < f.upBody.length + b.length)) ∧
      st'.creates = st.creates +
        (if st.sess.isSome = false ∧ cfg.mps < f.upBody.length + b.length
         then 1 else 0) ∧
      f'.dStream = f.dStream ∧
      f'.flag = f.flag ∧ f'.closed = f.closed ∧ f'.truncated = f.truncated ∧
      st'.obj = st.obj ∧ st'.puts = st.puts ∧ st'.completes = st.completes := by
  unfold fileWrite
  rw [if_neg (by rw [hflag]; decide)]
  rw [if_neg (show ¬(f.flag &&& O_APPEND ≠ 0) by rw [hflag]; decide)]
  dsimp only
  rw [if_neg (by omega)]
  dsimp only
  obtain ⟨f3, st3, hup, hrel⟩ := uploadBody_spec cfg f st b hmps hc
  rw [hup]
  dsimp only
  refine ⟨{ f3 with dOff := f3.upOff }, st3, rfl, ?_, ?_, ?_, hrel.coupl, hrel.bodyLe,
    hrel.sessEq, hrel.createsEq, hrel.dStreamEq, hrel.flagEq, hrel.closedEq,
    hrel.truncEq, hrel.objEq, hrel.putsEq, hrel.complEq⟩
  · rw [show commit { f3 with dOff := f3.upOff } st3 = commit f3 st3 from rfl]
    exact hrel.commitEq
  · exact hrel.upOffEq
  · rw [show ({ f3 with dOff := f3.upOff } : SFile).dOff = f3.upOff from rfl]
    exact hrel.upOffEq

theorem WInv_init (cfg : Cfg) (st : Store) (hsess : st.sess = none) :
    WInv cfg [] st (freshFile O_RDWR) st := by
  refine ⟨?_, by simp [freshFile], rfl, rfl, rfl, ?_, ?_, ?_, rfl, rfl, rfl, rfl, rfl⟩
  · simp [commit, freshFile, hsess]
  · simp [freshFile, hsess]
  · simp [hsess]
  · simp [hsess]

theorem WInv_write (cfg : Cfg) (B : Bytes) (st0 : Store) (f : SFile) (st : Store)
    (b : Bytes) (hmps : 1 ≤ cfg.mps) (hw : WInv cfg B st0 f st) :
    ∃ f' st', fileWrite cfg f st b = (b.length, f', st', none) ∧
      WInv cfg (B ++ b) st0 f' st' := by
  have hbody : f.upBody.length = B.length ∨ cfg.mps < B.length := by
    rcases hs : st.sess with _ | ps
    · left
      have := hw.commitEq
      rw [commit, hs] at this
      simp at this
      rw [this]
    · right
      have := hw.sessIff
      rw [hs] at this
      simp at this
      exact this
  obtain ⟨f', st', heq, hcommit, hup, hdOff, hcpl, hble, hsess', hcr', hds, hfl,
      hcl, htr, hobj', hput', hcmp'⟩ :=
    fileWrite_nogap cfg f st b hmps hw.flagEq (by rw [hw.upOffEq, hw.dOffEq]) hw.coupl
  refine ⟨f', st', heq, ?_, hble, ?_, ?_, ?_, ?_, ?_, ?_, ?_, ?_, ?_, ?_, ?_⟩
  · rw [hcommit, hw.commitEq]
  · rw [hup, hw.upOffEq, List.length_append]
  · rw [hdOff, hw.upOffEq, List.length_append]
  · rw [hfl, hw.flagEq]
  · exact hcpl
  · rw [hsess', List.length_append]
    rcases hs : st.sess with _ | ps
    · have hlen : f.upBody.length = B.length := by
        rcases hbody with h | h
        · exact h
        · have := hw.sessIff
          rw [hs] at this
          simp at this
          omega
      simp only [Option.isSome_none, Bool.false_or]
      rw [hlen]
    · have hlt : cfg.mps < B.length := by
        have := hw.sessIff
        rw [hs] at this
        simp at this
        exact this
      simp only [Option.isSome_some, Bool.true_or]
      have : cfg.mps < B.length + b.length := by omega
      simp [this]
  · rw [hcr', hw.createsEq, hsess']
    rcases hs : st.sess with _ | ps
    · have hlen : f.upBody.length = B.length := by
        rcases hbody with h | h
        · exact h
        · have := hw.sessIff
          rw [hs] at this
          simp at this
          omega
      simp only [Option.isSome_none, Bool.false_or]
      rw [hlen]
      by_cases hx : cfg.mps < B.length + b.length <;> simp [hx]
    · simp
  · rw [hobj', hw.objEq]
  · rw [hput', hw.putsEq]
  · rw [hcmp', hw.complEq]
  · rw [hcl, hw.closedEq]
  · rw [htr, hw.truncEq]

theorem writeSeq_WInv (cfg : Cfg) (st0 : Store) (hmps : 1 ≤ cfg.mps) :
    ∀ (bs : List Bytes) (B : Bytes) (f : SFile) (st : Store), WInv cfg B st0 f st →
    ∃ f' st', writeSeq cfg bs f st = (f', st', none) ∧
      WInv cfg (B ++ bs.flatten) st0 f' st' := by
  intro bs
  induction bs with
  | nil =>
    intro B f st hw
    refine ⟨f, st, rfl, ?_⟩
    simpa using hw
  | cons b bs ih =>
    intro B f st hw
    obtain ⟨f1, st1, heq1, hw1⟩ := WInv_write cfg B st0 f st b hmps hw
    obtain ⟨f2, st2, heq2, hw2⟩ := ih (B ++ b) f1 st1 hw1
    refine ⟨f2, st2, ?_, ?_⟩
    · simp only [writeSeq]
      rw [heq1]
      exact heq2
    · simp only [List.flatten_cons, ← List.append_assoc]
      exact hw2

theorem WInv_sync (cfg : Cfg) (B : Bytes) (st0 : Store) (f : SFile) (st : Store)
    (hw : WInv cfg B st0 f st)
    (hobj : st0.obj = none ∨ ∃ o, st0.obj = some o ∧ o.length ≤ B.length) :
    ∃ f' st', fileSync cfg f st = (f', st', none) ∧ st'.obj = some B := by
  unfold fileSync
  rw [if_neg (by rw [hw.flagEq]; decide)]
  rcases hobj with h0 | ⟨o, h0, hlen⟩
  · have hso : st.obj = none := by rw [hw.objEq, h0]
    rw [show statSize st = .error .notExist by rw [statSize, hso]]
    dsimp only
    rw [if_pos rfl]
    obtain ⟨f', st', heq, hobj', _, _⟩ := syncFinish_spec f st hw.coupl
    rw [heq]
    exact ⟨f', st', rfl, by rw [hobj', hw.commitEq]⟩
  · have hso : st.obj = some o := by rw [hw.objEq, h0]
    rw [show statSize st = .ok o.length by rw [statSize, hso]]
    dsimp only
    rw [if_neg (by rw [hw.upOffEq]; omega)]
    obtain ⟨f', st', heq, hobj', _, _⟩ := syncFinish_spec f st hw.coupl
    rw [heq]
    exact ⟨f', st', rfl, by rw [hobj', hw.commitEq]⟩

theorem writeGap_core (cfg : Cfg) (o b : Bytes) (k : Nat) (st : Store)
    (hmps : 1 ≤ cfg.mps) (hobj : st.obj = some o) (hsess : st.sess = none)
    (hk : k ≤ o.length) :
    ∃ f' st',
      fileWrite cfg ⟨O_RDWR, false, false, [], 0, false, 0, k, none⟩ st b =
        (b.length, f', st', none) ∧
      commit f' st' = o.take k ++ b ∧
      f'.upOff = k + b.length ∧ f'.dOff = k + b.length ∧
      f'.multipart = st'.sess.isSome ∧ f'.upBody.length ≤ cfg.mps ∧
      f'.flag = O_RDWR ∧ f'.closed = false ∧ f'.truncated = false ∧
      st'.obj = st.obj ∧ st'.puts = st.puts ∧ st'.completes = st.completes := by
  unfold fileWrite
  dsimp only
  rw [if_neg (show ¬(O_RDWR = 0) by decide)]
  rw [if_neg (show ¬(O_RDWR &&& O_APPEND ≠ 0) by decide)]
  dsimp only
  by_cases hk0 : 0 < k
  · rw [if_pos hk0]
    rw [fileSeek_nat0 ⟨O_RDWR, false, false, [], 0, false, 0, k, none⟩ st o 0 hobj
      (by omega)]
    dsimp only
    obtain ⟨p', f2, st2, hgl, hcommit2, hup2, hc2, hb2, hfl2, hcl2, htr2,
        hobj2, hput2, hcmp2⟩ :=
      gapLoop_spec cfg o k hmps hk (k - 0 + 1) (List.replicate cfg.mps 0)
        ⟨O_RDWR, false, false, [], 0, false, 0, 0, none⟩ st hobj (by decide) rfl
        (Nat.zero_le k) (Or.inl rfl) (fun _ => by simp)
        (by rw [hsess]; rfl) (Nat.zero_le _) (show k - 0 < k - 0 + 1 by omega)
    rw [hgl]
    dsimp only
    obtain ⟨f3, st3, hup, hrel⟩ := uploadBody_spec cfg f2 st2 b hmps hc2
    rw [hup]
    dsimp only
    refine ⟨{ f3 with dOff := f3.upOff }, st3, rfl, ?_, ?_, ?_, hrel.coupl,
      hrel.bodyLe, ?_, ?_, ?_, ?_, ?_, ?_⟩
    · rw [show commit { f3 with dOff := f3.upOff } st3 = commit f3 st3 from rfl]
      rw [hrel.commitEq, hcommit2]
      rw [show commit (⟨O_RDWR, false, false, [], 0, false, 0, 0, none⟩ : SFile) st =
        (st.sess.getD []).flatten by simp [commit]]
      rw [hsess]
      simp
    · rw [show ({ f3 with dOff := f3.upOff } : SFile).upOff = f3.upOff from rfl]
      rw [hrel.upOffEq, hup2]
    · rw [show ({ f3 with dOff := f3.upOff } : SFile).dOff = f3.upOff from rfl]
      rw [hrel.upOffEq, hup2]
    · rw [show ({ f3 with dOff := f3.upOff } : SFile).flag = f3.flag from rfl]
      rw [hrel.flagEq, hfl2]
    · rw [show ({ f3 with dOff := f3.upOff } : SFile).closed = f3.closed from rfl]
      rw [hrel.closedEq, hcl2]
    · rw [show ({ f3 with dOff := f3.upOff } : SFile).truncated = f3.truncated from rfl]
      rw [hrel.truncEq, htr2]
    · rw [hrel.objEq, hobj2]
    · rw [hrel.putsEq, hput2]
    · rw [hrel.complEq, hcmp2]
  · rw [if_neg hk0]
    dsimp only
    have hk00 : k = 0 := by omega
    subst hk00
    obtain ⟨f3, st3, hup, hrel⟩ := uploadBody_spec cfg
      ⟨O_RDWR, false, false, [], 0, false, 0, 0, none⟩ st b hmps (by rw [hsess]; rfl)
    rw [hup]
    dsimp only
    refine ⟨{ f3 with dOff := f3.upOff }, st3, rfl, ?_, ?_, ?_, hrel.coupl,
      hrel.bodyLe, ?_, ?_, ?_, ?_, ?_, ?_⟩
    · rw [show commit { f3 with dOff := f3.upOff } st3 = commit f3 st3 from rfl]
      rw [hrel.commitEq]
      rw [show commit (⟨O_RDWR, false, false, [], 0, false, 0, 0, none⟩ : SFile) st =
        (st.sess.getD []).flatten by simp [commit]]
      rw [hsess]
      simp
    · rw [show ({ f3 with dOff := f3.upOff } : SFile).upOff = f3.upOff from rfl]
      rw [hrel.upOffEq]
    · rw [show ({ f3 with dOff := f3.upOff } : SFile).dOff = f3.upOff from rfl]
      rw [hrel.upOffEq]
    · rw [show ({ f3 with dOff := f3.upOff } : SFile).flag = f3.flag from rfl]
      rw [hrel.flagEq]
    · rw [show ({ f3 with dOff := f3.upOff } : SFile).closed = f3.closed from rfl]
      rw [hrel.closedEq]
    · rw [show ({ f3 with dOff := f3.upOff } : SFile).truncated = f3.truncated from rfl]
      rw [hrel.truncEq]
    · exact hrel.objEq
    · exact hrel.putsEq
    · exact hrel.complEq

theorem writeAt_fresh (cfg : Cfg) (o b : Bytes) (k : Nat) (st : Store)
    (hmps : 1 ≤ cfg.mps) (hobj : st.obj = some o) (hsess : st.sess = none)
    (hk : k ≤ o.length) :
    ∃ f' st',
      fileWriteAt cfg (freshFile O_RDWR) st b (k : Int) =
        (b.length, f', st', none) ∧
      commit f' st' = o.take k ++ b ∧
      f'.upOff = k + b.length ∧ f'.dOff = k + b.length ∧
      f'.multipart = st'.sess.isSome ∧ f'.upBody.length ≤ cfg.mps ∧
      f'.flag = O_RDWR ∧ f'.closed = false ∧ f'.truncated = false ∧
      st'.obj = st.obj ∧ st'.puts = st.puts ∧ st'.completes = st.completes := by
  unfold fileWriteAt
  rw [if_neg (show ¬((freshFile O_RDWR).flag = 0) by decide)]
  rw [fileSeek_nat0 (freshFile O_RDWR) st o k hobj hk]
  dsimp only
  exact writeGap_core cfg o b k st hmps hobj hsess hk

theorem fileSync_tail (cfg : Cfg) (o : Bytes) (f : SFile) (st : Store)
    (hmps : 1 ≤ cfg.mps) (hobj : st.obj = some o)
    (hflag : f.flag = O_RDWR) (htr : f.truncated = false)
    (hc : f.multipart = st.sess.isSome) (hbody : f.upBody.length ≤ cfg.mps)
    (hup : f.upOff ≤ o.length) :
    ∃ f' st', fileSync cfg f st = (f', st', none) ∧
      st'.obj = some (commit f st ++ o.drop f.upOff) := by
  unfold fileSync
  rw [if_neg (by rw [hflag]; decide)]
  rw [show statSize st = .ok o.length by rw [statSize, hobj]]
  dsimp only
  by_cases hlt : f.upOff < o.length
  · rw [if_pos ⟨by simp [htr], hlt⟩]
    rw [fileSeek_nat0 f st o f.upOff hobj hup]
    dsimp only
    obtain ⟨f2, st2, hsl, hcommit2, hc2, hb2, hfl2, hcl2, htr2, hup2,
        hobj2, hput2, hcmp2⟩ :=
      syncLoop_spec cfg o hmps (o.length + 2) (List.replicate cfg.mps 0)
        { f with dOff := f.upOff, dStream := none } st hobj
        (by rw [show ({ f with dOff := f.upOff, dStream := none } : SFile).flag =
          f.flag from rfl, hflag]; decide)
        hup (Or.inl rfl) (by simp) hc hbody
        (show o.length - f.upOff < o.length + 2 by omega)
    rw [hsl]
    dsimp only
    obtain ⟨f', st', hsf, hobj', _, _⟩ := syncFinish_spec f2 st2 hc2
    rw [hsf]
    refine ⟨f', st', rfl, ?_⟩
    rw [hobj', hcommit2]
    rfl
  · rw [if_neg (fun hcon => hlt hcon.2)]
    obtain ⟨f', st', hsf, hobj', _, _⟩ := syncFinish_spec f st hc
    rw [hsf]
    refine ⟨f', st', rfl, ?_⟩
    rw [hobj']
    have hnil : o.drop f.upOff = [] := List.drop_eq_nil_of_le (by omega)
    rw [hnil, List.append_nil]

theorem fileSync_noTail (cfg : Cfg) (o : Bytes) (f : SFile) (st : Store)
    (hobj : st.obj = some o) (hflag : f.flag = O_RDWR)
    (hc : f.multipart = st.sess.isSome) (hup : o.length ≤ f.upOff) :
    ∃ f' st', fileSync cfg f st = (f', st', none) ∧
      st'.obj = some (commit f st) := by
  unfold fileSync
  rw [if_neg (by rw [hflag]; decide)]
  rw [show statSize st = .ok o.length by rw [statSize, hobj]]
  dsimp only
  rw [if_neg (fun hcon => absurd hcon.2 (by omega))]
  obtain ⟨f', st', hsf, hobj', _, _⟩ := syncFinish_spec f st hc
  rw [hsf]
  exact ⟨f', st', rfl, hobj'⟩

theorem statSize_err (st : Store) (e : Err) (h : statSize st = .error e) :
    e = Err.notExist := by
  unfold statSize at h
  rcases ho : st.obj with _ | o
  · rw [ho] at h
    simpa using h.symm
  · rw [ho] at h
    simp at h

theorem fileWrite_err_cases (cfg : Cfg) (f : SFile) (st : Store) (b : Bytes)
    (hf : ¬f.flag = 0) :
    notCR (fileWrite cfg f st b).2.2.2 := by
  unfold fileWrite
  rw [if_neg hf]
  dsimp only
  split
  next f1 e1 heq =>
    split at heq
    · split at heq
      next e heqs =>
        split at heq
        · simp at heq
        · have he : e = Err.notExist := statSize_err st e heqs
          simp only [Prod.mk.injEq, Option.some.injEq] at heq
          rw [← heq.2, he]
          simp [notCR]
      next sz heqs =>
        split at heq
        · simp at heq
        next r1 f2 e2 heq2 =>
          simp only [Prod.mk.injEq, Option.some.injEq] at heq
          have hb := fileSeek_err f st (sz : Int) 0
          rw [heq2] at hb
          simp only [notCR, ne_eq, Option.some.injEq] at hb ⊢
          rw [← heq.2]
          exact hb
    · simp at heq
  next f1 heq =>
    split
    next p2 f2 st2 e2 heq2 =>
      split at heq2
      · split at heq2
        next i3 f3 heq3 =>
          have hb := gapLoop_err cfg f1.dOff (f1.dOff - f3.upOff + 1)
            (List.replicate cfg.mps 0) f3 st
          rw [heq2] at hb
          simpa [notCR] using hb
        next i3 f3 e3 heq3 =>
          simp only [Prod.mk.injEq, Option.some.injEq] at heq2
          have hb := fileSeek_err f1 st (f1.upOff : Int) 0
          rw [heq3] at hb
          simp only [notCR, ne_eq, Option.some.injEq] at hb ⊢
          rw [← heq2.2.2.2]
          exact hb
      · simp at heq2
    next p2 f2 st2 heq2 =>
      split
      next f3 st3 e3 heq3 =>
        have hb := uploadBody_err cfg f2 st2 b
        rw [heq3] at hb
        simpa [notCR] using hb
      next f3 st3 heq3 =>
        simp [notCR]

/-- C1 counterexample: the claim fails as stated.  On a pre-existing
object `[1,2]`, writing the single byte sequence `[9]` on a fresh
read-write handle and syncing yields the object `[9,2]`: Sync's
tail-copy appends the untouched remote tail, so reading back returns
`[9,2]`, not the written bytes `[9]`. -/
theorem c1_cex_roundtrip :
    (fileWrite ⟨5⟩ (freshFile O_RDWR) ⟨some [1, 2], none, 0, 0, 0⟩ [9]).2.2.2 =
      none ∧
    (fileSync ⟨5⟩
      (fileWrite ⟨5⟩ (freshFile O_RDWR) ⟨some [1, 2], none, 0, 0, 0⟩ [9]).2.1
      (fileWrite ⟨5⟩ (freshFile O_RDWR) ⟨some [1, 2], none, 0, 0, 0⟩ [9]).2.2.1).2.2 =
      none ∧
    (readAllLoop ⟨5⟩ 4 (freshFile 0)
      (fileSync ⟨5⟩
        (fileWrite ⟨5⟩ (freshFile O_RDWR) ⟨some [1, 2], none, 0, 0, 0⟩ [9]).2.1
        (fileWrite ⟨5⟩ (freshFile O_RDWR) ⟨some [1, 2], none, 0, 0, 0⟩ [9]).2.2.1).2.1).1 =
      [9, 2] ∧
    ¬([9, 2] : Bytes) = [9] := by decide

/-- C1 (amended): for every sequence of sequential Write calls on a
fresh read-write handle, provided the object does not already exist
with a size larger than the total bytes written, Sync stores exactly
the concatenation of the written chunks and reopening for read and
reading to end-of-stream returns it. -/
theorem c1_roundtrip_amended (cfg : Cfg) (bs : List Bytes) (st : Store)
    (hmps : 1 ≤ cfg.mps) (hsess : st.sess = none)
    (hobj : st.obj = none ∨ ∃ o, st.obj = some o ∧ o.length ≤ bs.flatten.length) :
    ∃ f1 st1 f2 st2,
      writeSeq cfg bs (freshFile O_RDWR) st = (f1, st1, none) ∧
      fileSync cfg f1 st1 = (f2, st2, none) ∧
      st2.obj = some bs.flatten ∧
      sOpenFile st2 0 = (some (freshFile 0), none) ∧
      (readAllLoop cfg (bs.flatten.length + 1) (freshFile 0) st2).1 = bs.flatten ∧
      (readAllLoop cfg (bs.flatten.length + 1) (freshFile 0) st2).2.2 = none := by
  obtain ⟨f1, st1, hws, hw1⟩ :=
    writeSeq_WInv cfg st hmps bs [] (freshFile O_RDWR) st (WInv_init cfg st hsess)
  rw [List.nil_append] at hw1
  obtain ⟨f2, st2, hsy, hobj2⟩ := WInv_sync cfg bs.flatten st f1 st1 hw1 hobj
  refine ⟨f1, st1, f2, st2, hws, hsy, hobj2,
    sOpenFile_read st2 bs.flatten hobj2, ?_, ?_⟩
  · exact (readAllLoop_fresh cfg st2 bs.flatten hobj2 _ (by omega)).1
  · exact (readAllLoop_fresh cfg st2 bs.flatten hobj2 _ (by omega)).2

/-- C1 witness: the amended round-trip at a concrete input that
exercises the multipart path (two writes totalling 3 bytes with a
2-byte minimum part size on a fresh object). -/
theorem c1_roundtrip_witness :
    1 ≤ (⟨2⟩ : Cfg).mps ∧ (⟨none, none, 0, 0, 0⟩ : Store).sess = none ∧
    ((⟨none, none, 0, 0, 0⟩ : Store).obj = none ∨
      ∃ o, (⟨none, none, 0, 0, 0⟩ : Store).obj = some o ∧
        o.length ≤ ([[1], [2, 3]] : List Bytes).flatten.length) ∧
    (∃ f1 st1 f2 st2,
      writeSeq ⟨2⟩ [[1], [2, 3]] (freshFile O_RDWR) ⟨none, none, 0, 0, 0⟩ =
        (f1, st1, none) ∧
      fileSync ⟨2⟩ f1 st1 = (f2, st2, none) ∧
      st2.obj = some ([[1], [2, 3]] : List Bytes).flatten ∧
      sOpenFile st2 0 = (some (freshFile 0), none) ∧
      (readAllLoop ⟨2⟩ (([[1], [2, 3]] : List Bytes).flatten.length + 1)
        (freshFile 0) st2).1 = ([[1], [2, 3]] : List Bytes).flatten ∧
      (readAllLoop ⟨2⟩ (([[1], [2, 3]] : List Bytes).flatten.length + 1)
        (freshFile 0) st2).2.2 = none) :=
  ⟨by decide, rfl, Or.inl rfl,
    c1_roundtrip_amended ⟨2⟩ [[1], [2, 3]] ⟨none, none, 0, 0, 0⟩ (by decide) rfl
      (Or.inl rfl)⟩

/-- C2 counterexample: the claim fails as stated.  After writing one
byte on a fresh create/read-write handle over a missing object, Close
succeeds but issues no PUT and no multipart completion: the store still
has no object and both counters are zero, although a byte was pending
in the write buffer. -/
theorem c2_cex_close_no_flush :
    (fileWrite ⟨5⟩ (freshFile O_RDWR) ⟨none, none, 0, 0, 0⟩ [7]).2.1.upBody =
      [7] ∧
    (fileClose (fileWrite ⟨5⟩ (freshFile O_RDWR) ⟨none, none, 0, 0, 0⟩ [7]).2.1
      (fileWrite ⟨5⟩ (freshFile O_RDWR) ⟨none, none, 0, 0, 0⟩ [7]).2.2.1).2.2 =
      none ∧
    (fileClose (fileWrite ⟨5⟩ (freshFile O_RDWR) ⟨none, none, 0, 0, 0⟩ [7]).2.1
      (fileWrite ⟨5⟩ (freshFile O_RDWR) ⟨none, none, 0, 0, 0⟩ [7]).2.2.1).2.1.obj =
      none ∧
    (fileClose (fileWrite ⟨5⟩ (freshFile O_RDWR) ⟨none, none, 0, 0, 0⟩ [7]).2.1
      (fileWrite ⟨5⟩ (freshFile O_RDWR) ⟨none, none, 0, 0, 0⟩ [7]).2.2.1).2.1.puts =
      0 ∧
    (fileClose (fileWrite ⟨5⟩ (freshFile O_RDWR) ⟨none, none, 0, 0, 0⟩ [7]).2.1
      (fileWrite ⟨5⟩ (freshFile O_RDWR) ⟨none, none, 0, 0, 0⟩ [7]).2.2.1).2.1.completes =
      0 := by decide

/-- C2 (amended): Close performs no finalization at all: it discards
the pending buffers and the read stream, leaves the store untouched (no
PUT, no multipart completion), and marks the handle closed; a second
Close fails with the Closed error. -/
theorem c2_close_amended (f : SFile) (st : Store) (h : f.closed = false) :
    fileClose f st = ({ resetBuffers f with closed := true }, st, none) ∧
    (fileClose { resetBuffers f with closed := true } st).2.2 = some Err.closed := by
  constructor
  · unfold fileClose
    rw [if_neg (by simp [h])]
  · unfold fileClose
    rw [if_pos rfl]

/-- C2 witness: the amended Close behaviour on a fresh read-write
handle. -/
theorem c2_close_witness :
    (freshFile O_RDWR).closed = false ∧
    (fileClose (freshFile O_RDWR) ⟨none, none, 0, 0, 0⟩ =
      ({ resetBuffers (freshFile O_RDWR) with closed := true },
        ⟨none, none, 0, 0, 0⟩, none) ∧
    (fileClose { resetBuffers (freshFile O_RDWR) with closed := true }
      ⟨none, none, 0, 0, 0⟩).2.2 = some Err.closed) :=
  ⟨rfl, c2_close_amended (freshFile O_RDWR) ⟨none, none, 0, 0, 0⟩ rfl⟩

/-- C3: on an existing object `o`, for every offset `k < o.length` and
byte sequence `b`, WriteAt of `b` at `k` on a fresh read-write handle
followed by Sync produces the object whose bytes are `o` on `[0,k)`,
then `b`, then `o` again from `k + b.length` on. -/
theorem c3_writeat_splice (cfg : Cfg) (o b : Bytes) (k : Nat) (st : Store)
    (hmps : 1 ≤ cfg.mps) (hobj : st.obj = some o) (hsess : st.sess = none)
    (hk : k < o.length) :
    ∃ f1 st1 f2 st2,
      fileWriteAt cfg (freshFile O_RDWR) st b (k : Int) =
        (b.length, f1, st1, none) ∧
      fileSync cfg f1 st1 = (f2, st2, none) ∧
      st2.obj = some (o.take k ++ b ++ o.drop (k + b.length)) := by
  obtain ⟨f1, st1, hwr, hcommit, hup, hd, hc, hb, hfl, hcl, htr, hobj1, _, _⟩ :=
    writeAt_fresh cfg o b k st hmps hobj hsess (Nat.le_of_lt hk)
  by_cases hcase : k + b.length ≤ o.length
  · obtain ⟨f2, st2, hs, hobj2⟩ := fileSync_tail cfg o f1 st1 hmps
      (by rw [hobj1, hobj]) hfl htr hc hb (by rw [hup]; exact hcase)
    refine ⟨f1, st1, f2, st2, hwr, hs, ?_⟩
    rw [hobj2, hcommit, hup, List.append_assoc]
  · obtain ⟨f2, st2, hs, hobj2⟩ := fileSync_noTail cfg o f1 st1
      (by rw [hobj1, hobj]) hfl hc (by rw [hup]; omega)
    refine ⟨f1, st1, f2, st2, hwr, hs, ?_⟩
    rw [hobj2, hcommit]
    have hnil : o.drop (k + b.length) = [] := List.drop_eq_nil_of_le (by omega)
    rw [hnil, List.append_nil]

/-- C3 witness: the splice at a concrete input (object `[1,2,3]`, one
byte written at offset 1, 2-byte minimum part size). -/
theorem c3_writeat_witness :
    1 ≤ (⟨2⟩ : Cfg).mps ∧
    (⟨some [1, 2, 3], none, 0, 0, 0⟩ : Store).obj = some [1, 2, 3] ∧
    (⟨some [1, 2, 3], none, 0, 0, 0⟩ : Store).sess = none ∧
    1 < ([1, 2, 3] : Bytes).length ∧
    (∃ f1 st1 f2 st2,
      fileWriteAt ⟨2⟩ (freshFile O_RDWR) ⟨some [1, 2, 3], none, 0, 0, 0⟩ [9]
        ((1 : Nat) : Int) = (([9] : Bytes).length, f1, st1, none) ∧
      fileSync ⟨2⟩ f1 st1 = (f2, st2, none) ∧
      st2.obj = some (([1, 2, 3] : Bytes).take 1 ++ [9] ++
        ([1, 2, 3] : Bytes).drop (1 + ([9] : Bytes).length))) :=
  ⟨by decide, rfl, rfl, by decide,
    c3_writeat_splice ⟨2⟩ [1, 2, 3] [9] 1 ⟨some [1, 2, 3], none, 0, 0, 0⟩
      (by decide) rfl rfl (by decide)⟩

/-- C4 counterexample: the claim fails as stated.  Writing exactly one
full minimum-part-size worth of bytes (2 bytes with a 2-byte threshold)
does not create a multipart session: the flush loop fires only when the
pending body strictly exceeds the threshold. -/
theorem c4_cex_exact_threshold :
    (writeSeq ⟨2⟩ [[1, 2]] (freshFile O_RDWR) ⟨none, none, 0, 0, 0⟩).2.2 = none ∧
    (writeSeq ⟨2⟩ [[1, 2]] (freshFile O_RDWR) ⟨none, none, 0, 0, 0⟩).2.1.creates = 0 ∧
    (writeSeq ⟨2⟩ [[1, 2]] (freshFile O_RDWR) ⟨none, none, 0, 0, 0⟩).1.multipart =
      false ∧
    (⟨2⟩ : Cfg).mps ≤ ([[1, 2]] : List Bytes).flatten.length := by decide

/-- C4 (amended): a sequential write session on a fresh read-write
handle creates a multipart upload session (exactly one
CreateMultipartUpload call) if and only if the total bytes written
strictly exceed the minimum part size; at or below the threshold no
session is ever created. -/
theorem c4_multipart_amended (cfg : Cfg) (bs : List Bytes) (st : Store)
    (hmps : 1 ≤ cfg.mps) (hsess : st.sess = none) (hcr : st.creates = 0) :
    ∃ f' st', writeSeq cfg bs (freshFile O_RDWR) st = (f', st', none) ∧
      st'.creates = (if cfg.mps < bs.flatten.length then 1 else 0) ∧
      (f'.multipart = true ↔ cfg.mps < bs.flatten.length) := by
  obtain ⟨f', st', hws, hw⟩ :=
    writeSeq_WInv cfg st hmps bs [] (freshFile O_RDWR) st (WInv_init cfg st hsess)
  rw [List.nil_append] at hw
  refine ⟨f', st', hws, ?_, ?_⟩
  · rw [hw.createsEq, hcr, hw.sessIff]
    by_cases hx : cfg.mps < bs.flatten.length <;> simp [hx]
  · rw [hw.coupl, hw.sessIff]
    by_cases hx : cfg.mps < bs.flatten.length <;> simp [hx]

/-- C4 witness: the amended threshold behaviour at a concrete input
(3 bytes written against a 2-byte minimum part size creates exactly one
session). -/
theorem c4_multipart_witness :
    1 ≤ (⟨2⟩ : Cfg).mps ∧ (⟨none, none, 0, 0, 0⟩ : Store).sess = none ∧
    (⟨none, none, 0, 0, 0⟩ : Store).creates = 0 ∧
    (∃ f' st',
      writeSeq ⟨2⟩ [[1, 2, 3]] (freshFile O_RDWR) ⟨none, none, 0, 0, 0⟩ =
        (f', st', none) ∧
      st'.creates =
        (if (⟨2⟩ : Cfg).mps < ([[1, 2, 3]] : List Bytes).flatten.length
         then 1 else 0) ∧
      (f'.multipart = true ↔
        (⟨2⟩ : Cfg).mps < ([[1, 2, 3]] : List Bytes).flatten.length)) :=
  ⟨by decide, rfl, rfl,
    c4_multipart_amended ⟨2⟩ [[1, 2, 3]] ⟨none, none, 0, 0, 0⟩ (by decide) rfl rfl⟩

/-- C5 counterexample: the claim fails as stated.  On the object
`[1,2]`, Truncate(1) followed by Sync yields the empty object, not an
object of size 1 whose byte equals the original first byte: Truncate
resets the buffers and only seeks, it copies nothing forward, and Sync
skips the tail copy because the handle is marked truncated. -/
theorem c5_cex_truncate :
    (fileTruncate (freshFile O_RDWR) ⟨some [1, 2], none, 0, 0, 0⟩ 1).2 = none ∧
    (fileSync ⟨5⟩ (fileTruncate (freshFile O_RDWR) ⟨some [1, 2], none, 0, 0, 0⟩ 1).1
      ⟨some [1, 2], none, 0, 0, 0⟩).2.2 = none ∧
    (fileSync ⟨5⟩ (fileTruncate (freshFile O_RDWR) ⟨some [1, 2], none, 0, 0, 0⟩ 1).1
      ⟨some [1, 2], none, 0, 0, 0⟩).2.1.obj = some [] ∧
    ¬(some ([] : Bytes)) = some (([1, 2] : Bytes).take 1) := by decide

/-- C5 (amended): on a writable non-append handle over an existing
object, Truncate(n) followed by Sync (with no intervening Write) always
yields the empty object, for every 0 ≤ n ≤ size: the first n bytes are
not preserved, since Truncate discards all buffers and Sync, seeing the
truncated flag, performs a single PUT of the empty pending body. -/
theorem c5_truncate_amended (cfg : Cfg) (f : SFile) (st : Store) (o : Bytes)
    (n : Int) (hobj : st.obj = some o) (hflag : ¬f.flag = 0)
    (happ : f.flag &&& O_APPEND = 0) (hn0 : 0 ≤ n) (hn : n ≤ (o.length : Int)) :
    ∃ f1 f2 st2, fileTruncate f st n = (f1, none) ∧
      fileSync cfg f1 st = (f2, st2, none) ∧
      st2.obj = some [] ∧ st2.puts = st.puts + 1 := by
  obtain ⟨fl, fc, ftr, fub, fuo, fmp, fpa, fdo, fds⟩ := f
  dsimp only at hflag happ
  unfold fileTruncate resetBuffers
  dsimp only
  rw [if_neg hflag, if_neg (by simp [happ])]
  have hnn : n = ((n.toNat : Nat) : Int) := (Int.toNat_of_nonneg hn0).symm
  rw [hnn, fileSeek_nat0 _ st o n.toNat hobj (by omega)]
  dsimp only
  have hsync : fileSync cfg ⟨fl, fc, true, [], 0, false, 0, n.toNat, none⟩ st =
      (⟨fl, fc, true, [], 0, false, 0, n.toNat, none⟩,
       { st with obj := some [], puts := st.puts + 1 }, none) := by
    unfold fileSync
    rw [if_neg hflag]
    rw [show statSize st = .ok o.length by rw [statSize, hobj]]
    dsimp only
    rw [if_neg (fun hcon => hcon.1 rfl)]
    unfold syncFinish
    dsimp only
    rw [if_neg (by simp)]
  exact ⟨_, _, _, rfl, hsync, rfl, rfl⟩

/-- C5 witness: the amended Truncate+Sync behaviour at a concrete input
(object `[1,2]`, truncation to 1). -/
theorem c5_truncate_witness :
    (⟨some [1, 2], none, 0, 0, 0⟩ : Store).obj = some [1, 2] ∧
    ¬(freshFile O_RDWR).flag = 0 ∧
    (freshFile O_RDWR).flag &&& O_APPEND = 0 ∧
    (0 : Int) ≤ 1 ∧ (1 : Int) ≤ (([1, 2] : Bytes).length : Int) ∧
    (∃ f1 f2 st2,
      fileTruncate (freshFile O_RDWR) ⟨some [1, 2], none, 0, 0, 0⟩ 1 =
        (f1, none) ∧
      fileSync ⟨5⟩ f1 ⟨some [1, 2], none, 0, 0, 0⟩ = (f2, st2, none) ∧
      st2.obj = some [] ∧
      st2.puts = (⟨some [1, 2], none, 0, 0, 0⟩ : Store).puts + 1) :=
  ⟨rfl, by decide, by decide, by decide, by decide,
    c5_truncate_amended ⟨5⟩ (freshFile O_RDWR) ⟨some [1, 2], none, 0, 0, 0⟩
      [1, 2] 1 rfl (by decide) (by decide) (by decide) (by decide)⟩

/-- C6 counterexample: the claim fails as stated.  A handle opened with
flag O_CREATE alone carries no write mode (neither O_WRONLY, O_RDWR nor
O_APPEND), yet Write accepts the byte and reports no error, because the
code only rejects the exact flag value 0. -/
theorem c6_cex_create_flag :
    O_CREATE &&& O_WRONLY = 0 ∧ O_CREATE &&& O_RDWR = 0 ∧
    O_CREATE &&& O_APPEND = 0 ∧
    (fileWrite ⟨5⟩ (freshFile O_CREATE) ⟨none, none, 0, 0, 0⟩ [7]).1 = 1 ∧
    (fileWrite ⟨5⟩ (freshFile O_CREATE) ⟨none, none, 0, 0, 0⟩ [7]).2.2.2 =
      none := by decide

/-- C6 (amended): Write fails with the ReadOnly error if and only if
the handle's numeric flag is exactly 0 (plain O_RDONLY); when it does,
it accepts zero bytes and changes nothing.  Any nonzero flag, even one
containing no write bit such as O_CREATE, is accepted. -/
theorem c6_write_readonly_amended (cfg : Cfg) (f : SFile) (st : Store) (b : Bytes) :
    ((fileWrite cfg f st b).2.2.2 = some Err.readOnly ↔ f.flag = 0) ∧
    (f.flag = 0 → fileWrite cfg f st b = (0, f, st, some Err.readOnly)) := by
  constructor
  · constructor
    · intro h
      by_contra hf
      exact (fileWrite_err_cases cfg f st b hf).2 h
    · intro h
      unfold fileWrite
      rw [if_pos h]
  · intro h
    unfold fileWrite
    rw [if_pos h]

/-- C7 counterexample: the claim fails as stated.  On a handle whose
closed flag is true, Read does not fail: it fetches the object and
returns its byte with no error, because only Close consults the closed
flag. -/
theorem c7_cex_closed_read :
    (⟨0, true, false, [], 0, false, 0, 0, none⟩ : SFile).closed = true ∧
    (fileRead ⟨5⟩ ⟨0, true, false, [], 0, false, 0, 0, none⟩
      ⟨some [5], none, 0, 0, 0⟩ [0]).err = none ∧
    (fileRead ⟨5⟩ ⟨0, true, false, [], 0, false, 0, 0, none⟩
      ⟨some [5], none, 0, 0, 0⟩ [0]).n = 1 ∧
    (fileRead ⟨5⟩ ⟨0, true, false, [], 0, false, 0, 0, none⟩
      ⟨some [5], none, 0, 0, 0⟩ [0]).buf = [5] := by decide

/-- C7 (amended): once the closed flag is true only Close fails, with
the Closed error; Read and Write do not consult the flag and never
return the Closed error. -/
theorem c7_closed_amended (cfg : Cfg) (f : SFile) (st : Store) (p : Bytes)
    (h : f.closed = true) :
    fileClose f st = (f, st, some Err.closed) ∧
    (fileRead cfg f st p).err ≠ some Err.closed ∧
    (fileWrite cfg f st p).2.2.2 ≠ some Err.closed := by
  refine ⟨?_, (fileRead_err cfg f st p).1, ?_⟩
  · unfold fileClose
    rw [if_pos h]
  · by_cases hf : f.flag = 0
    · unfold fileWrite
      rw [if_pos hf]
      simp
    · exact (fileWrite_err_cases cfg f st p hf).1

/-- C7 witness: the amended closed-handle behaviour at a concrete
closed handle. -/
theorem c7_closed_witness :
    (⟨0, true, false, [], 0, false, 0, 0, none⟩ : SFile).closed = true ∧
    (fileClose ⟨0, true, false, [], 0, false, 0, 0, none⟩
        ⟨some [5], none, 0, 0, 0⟩ =
      (⟨0, true, false, [], 0, false, 0, 0, none⟩,
        ⟨some [5], none, 0, 0, 0⟩, some Err.closed) ∧
    (fileRead ⟨5⟩ ⟨0, true, false, [], 0, false, 0, 0, none⟩
      ⟨some [5], none, 0, 0, 0⟩ [0]).err ≠ some Err.closed ∧
    (fileWrite ⟨5⟩ ⟨0, true, false, [], 0, false, 0, 0, none⟩
      ⟨some [5], none, 0, 0, 0⟩ [0]).2.2.2 ≠ some Err.closed) :=
  ⟨rfl, c7_closed_amended ⟨5⟩ ⟨0, true, false, [], 0, false, 0, 0, none⟩
    ⟨some [5], none, 0, 0, 0⟩ [0] rfl⟩

/-- C8: on an existing object, a Seek whose resolved target offset
(per whence 0, 1 or 2) is negative or beyond the object size returns
the end-of-stream signal io.EOF and leaves the handle, in particular
`downloadCursor`, completely unchanged. -/
theorem c8_seek_oob (f : SFile) (st : Store) (o : Bytes) (offset : Int)
    (whence : Nat) (hobj : st.obj = some o)
    (hw : whence = 0 ∨ whence = 1 ∨ whence = 2)
    (ht : seekTarget f o.length offset whence < 0 ∨
          (o.length : Int) < seekTarget f o.length offset whence) :
    fileSeek f st offset whence = (0, f, some Err.eof) := by
  unfold fileSeek
  rw [show statSize st = .ok o.length by rw [statSize, hobj]]
  dsimp only
  rcases hw with h | h | h <;> subst h <;> unfold seekTarget at ht <;>
    (try dsimp only at ht) <;> (try dsimp only)
  · by_cases h0 : offset < 0
    · rw [if_pos h0]
    · rw [if_neg h0, if_pos (by omega)]
  · by_cases h0 : offset < 0 ∧ (f.dOff : Int) + offset < 0
    · rw [if_pos h0]
    · rw [if_neg h0, if_pos (by omega)]
  · by_cases h0 : 0 < offset
    · rw [if_pos h0]
    · rw [if_neg h0, if_pos (by omega)]

/-- C8 witness: an out-of-range Seek at a concrete input (offset 5 from
the start of a 2-byte object). -/
theorem c8_seek_oob_witness :
    (⟨some [1, 2], none, 0, 0, 0⟩ : Store).obj = some [1, 2] ∧
    ((0 : Nat) = 0 ∨ (0 : Nat) = 1 ∨ (0 : Nat) = 2) ∧
    (seekTarget (freshFile 0) ([1, 2] : Bytes).length 5 0 < 0 ∨
      ((([1, 2] : Bytes).length : Int) < seekTarget (freshFile 0)
        ([1, 2] : Bytes).length 5 0)) ∧
    fileSeek (freshFile 0) ⟨some [1, 2], none, 0, 0, 0⟩ 5 0 =
      (0, freshFile 0, some Err.eof) :=
  ⟨rfl, Or.inl rfl, Or.inr (by decide),
    c8_seek_oob (freshFile 0) ⟨some [1, 2], none, 0, 0, 0⟩ [1, 2] 5 0 rfl
      (Or.inl rfl) (Or.inr (by decide))⟩

theorem readdirPage_bound (n : Int) (hn : 0 < n) :
    ∀ (os : List SObject) (count : Nat) (acc : List SFileInfo),
    (count : Int) ≤ n → count = acc.length →
    ((readdirPage n count acc os).1 = (readdirPage n count acc os).2.1.length ∧
     ((readdirPage n count acc os).2.2 = true →
        ((readdirPage n count acc os).1 : Int) ≤ n + 1) ∧
     ((readdirPage n count acc os).2.2 = false →
        ((readdirPage n count acc os).1 : Int) ≤ n)) := by
  intro os
  induction os with
  | nil =>
    intro count acc hc hca
    simp only [readdirPage]
    exact ⟨hca, fun h => by simp at h, fun _ => hc⟩
  | cons o os ih =>
    intro count acc hc hca
    simp only [readdirPage]
    by_cases hstop : ((count + 1 : Nat) : Int) > n ∧ n > 0
    · rw [if_pos hstop]
      refine ⟨by simp [hca], fun _ => by push_cast; omega, fun h => by simp at h⟩
    · rw [if_neg hstop]
      exact ih (count + 1) (acc ++ [⟨o.key, o.osize, o.mtime⟩])
        (by push_cast at hstop ⊢; omega) (by simp [hca])

theorem readdirPagesLoop_bound (n : Int) (thenErr : Bool) (hn : 0 < n) :
    ∀ (pages : List (List SObject)) (count : Nat) (acc : List SFileInfo),
    (count : Int) ≤ n → count = acc.length →
    (((readdirPagesLoop n thenErr count acc pages).1.length : Int)) ≤ n + 1 := by
  intro pages
  induction pages with
  | nil =>
    intro count acc hc hca
    simp only [readdirPagesLoop]
    omega
  | cons pg rest ih =>
    intro count acc hc hca
    simp only [readdirPagesLoop]
    obtain ⟨h1, h2, h3⟩ := readdirPage_bound n hn pg count acc hc hca
    by_cases hs : (readdirPage n count acc pg).2.2 = true
    · rw [if_pos hs]
      rw [← h1]
      exact h2 hs
    · rw [if_neg hs]
      exact ih (readdirPage n count acc pg).1 (readdirPage n count acc pg).2.1
        (h3 (by simpa using hs)) h1

/-- C9 counterexample: the claim fails as stated.  With limit 1 and one
page of three keys, Readdir returns two entries: the check `count > n`
runs only after the entry crossing the limit has already been appended,
so the result can contain limit + 1 entries. -/
theorem c9_cex_limit :
    (fileReaddir 1 [[⟨"a", 1, 0⟩, ⟨"b", 1, 0⟩, ⟨"c", 1, 0⟩]] false).1.length =
      2 ∧
    ¬(fileReaddir 1 [[⟨"a", 1, 0⟩, ⟨"b", 1, 0⟩, ⟨"c", 1, 0⟩]] false).1.length ≤
      1 := by decide

/-- C9 (amended): for every limit > 0, Readdir(limit) paginates through
the store and stops early once the collected count exceeds the limit;
the returned list contains at most limit + 1 entries (the entry that
crossed the limit is included). -/
theorem c9_readdir_amended (n : Int) (pages : List (List SObject))
    (thenErr : Bool) (hn : 0 < n) :
    ((fileReaddir n pages thenErr).1.length : Int) ≤ n + 1 := by
  unfold fileReaddir
  exact readdirPagesLoop_bound n thenErr hn pages 0 [] (by omega) rfl

/-- C9 witness: the amended bound at the concrete input of the
counterexample (limit 1, three keys, two entries returned). -/
theorem c9_readdir_witness :
    (0 : Int) < 1 ∧
    ((fileReaddir 1 [[⟨"a", 1, 0⟩, ⟨"b", 1, 0⟩, ⟨"c", 1, 0⟩]] false).1.length :
      Int) ≤ 1 + 1 :=
  ⟨by decide,
    c9_readdir_amended 1 [[⟨"a", 1, 0⟩, ⟨"b", 1, 0⟩, ⟨"c", 1, 0⟩]] false
      (by decide)⟩

/-- C10 counterexample: the claim fails as stated.  When the listing
fails after one delivered page, Readdir returns the one collected
record together with the error, but Readdirnames returns the empty list
with the error, so the two lists do not have the same length and
Readdirnames is not the Name-projection of Readdir's records. -/
theorem c10_cex_partial :
    (fileReaddir 0 [[⟨"a", 1, 0⟩]] true).2 = some Err.listErr ∧
    (fileReaddir 0 [[⟨"a", 1, 0⟩]] true).1.map infoName = ["a"] ∧
    (fileReaddirnames 0 [[⟨"a", 1, 0⟩]] true).2 = some Err.listErr ∧
    (fileReaddirnames 0 [[⟨"a", 1, 0⟩]] true).1 = [] ∧
    ¬(fileReaddirnames 0 [[⟨"a", 1, 0⟩]] true).1 =
      (fileReaddir 0 [[⟨"a", 1, 0⟩]] true).1.map infoName := by decide

/-- C10 (amended): Readdirnames(n) returns an error exactly when
Readdir(n) does; on success it returns exactly the Name of each of
Readdir's records, in the same order and of the same length; on error
it returns the empty list, discarding Readdir's partial records. -/
theorem c10_names_amended (n : Int) (pages : List (List SObject))
    (thenErr : Bool) :
    ((fileReaddirnames n pages thenErr).2 = (fileReaddir n pages thenErr).2) ∧
    ((fileReaddir n pages thenErr).2 = none →
      (fileReaddirnames n pages thenErr).1 =
        (fileReaddir n pages thenErr).1.map infoName) ∧
    ((fileReaddir n pages thenErr).2 ≠ none →
      (fileReaddirnames n pages thenErr).1 = []) := by
  rcases h : fileReaddir n pages thenErr with ⟨fi, e⟩
  unfold fileReaddirnames
  rw [h]
  rcases e with _ | e <;> simp

end S3
